import Mathlib

/-
Verification of the configuration materialization procedure of presto-yarn
(presto-yarn-package/src/main/slider/package/scripts/configure.py).

The script is a straight-line Python routine over the local filesystem.  We
give it a shallow embedding: filesystem state is an explicit record, the
routine is a pure function from a resolved parameter set and an initial
filesystem state to a result (final state, ordered trace of the performed
filesystem actions, and an optional raised error).  The external
collaborators (the resource_management framework's Directory and
TemplateConfig resources, the Python standard library's ast.literal_eval,
open(path, mode), os.path, os.makedirs and shutil.copy2) are modelled by
their documented semantics, as summarised by the specification.
-/

namespace PrestoYarn

/-- The path separator, as a string. -/
def slash : String := "/"

/-- The empty string, named so it can be used as a default argument. -/
def emptyStr : String := ""

/-- File extension of Presto properties files. -/
def propsExt : String := ".properties"

/-- File extension of the generated JVM config file. -/
def configExt : String := ".config"

/-- Splits a character list at every slash character.  The first argument
accumulates the current component in reverse. -/
def splitSlash : List Char → List Char → List (List Char)
  | acc, [] => [acc.reverse]
  | acc, c :: cs =>
      if c = '/' then acc.reverse :: splitSlash [] cs else splitSlash (c :: acc) cs

/-- The slash-separated components of a path string. -/
def splitPath (path : String) : List String :=
  (splitSlash [] path.data).map (fun cs => ⟨cs⟩)

/-- Given the first component and the remaining components of a path, the
list of all joined prefixes, ending with the full path. -/
def pathJoins : String → List String → List String
  | acc, [] => [acc]
  | acc, c :: cs => acc :: pathJoins (acc ++ slash ++ c) cs

/-- The proper ancestors of a path (every strict prefix at a component
boundary), shortest first. -/
def ancestorsOf (path : String) : List String :=
  match splitPath path with
  | [] => []
  | c0 :: rest => (pathJoins c0 rest).dropLast

/-- Modelled from the Python documentation of os.makedirs: recursive
directory creation makes the leaf directory and every missing intermediate
directory.  This is the list of directories such a call brings into
existence. -/
def mkdirsAdd (path : String) : List String := path :: ancestorsOf path

/-- The parent directory of a path (the longest proper ancestor), or the
empty string for a single-component path. -/
def parentDir (path : String) : String := (ancestorsOf path).getLastD emptyStr

/-- The final path component, as computed by os.path.basename for the paths
this script builds. -/
def baseName (path : String) : String := (splitPath path).getLastD emptyStr

/-- Modelled from os.path.join for a relative second argument, and from the
format strings of configure.py: paths are joined with a single slash. -/
def joinPath (dir name : String) : String := dir ++ slash ++ name

/-- One file of the modelled filesystem: its text content together with an
opaque metadata stamp (shutil.copy2 copies metadata along with content;
appending to a file leaves its metadata stamp unchanged in this model). -/
structure File where
  content : String
  meta : Nat
deriving DecidableEq

/-- Modelled filesystem state: an association list of files (most recent
write first), the list of existing directories, and the ownership records
(path, owner, group; most recent first). -/
structure FS where
  files : List (String × File)
  dirs : List String
  owns : List (String × String × String)
deriving DecidableEq

/-- Looks a path up in a file association list (first match wins). -/
def lookupFileL (files : List (String × File)) (path : String) : Option File :=
  match files.find? (fun kv => kv.1 == path) with
  | some kv => some kv.2
  | none => none

/-- The file currently stored at a path, if any. -/
def lookupFile (fs : FS) (path : String) : Option File :=
  lookupFileL fs.files path

/-- The text content at a path; the empty string when no file exists there
(this is what opening the path in append mode starts from). -/
def contentAt (fs : FS) (path : String) : String :=
  match lookupFile fs path with
  | some f => f.content
  | none => emptyStr

/-- The metadata stamp at a path, defaulting to zero for a fresh file. -/
def metaAt (fs : FS) (path : String) : Nat :=
  match lookupFile fs path with
  | some f => f.meta
  | none => 0

/-- Modelled from os.path.exists: a path exists when it is a directory or a
file of the current state. -/
def pathExists (fs : FS) (path : String) : Bool :=
  fs.dirs.contains path || (lookupFile fs path).isSome

/-- One of the three optional serialized-literal parameters of configure.py.
The Python value is a string; the script tests it for truthiness and then
decodes it with ast.literal_eval.  We model exactly the three observable
outcomes: the field is absent (None or the empty string, so the step is
skipped), it is present but its text is malformed (ast.literal_eval raises),
or it is present and decodes to a value of the expected shape. -/
inductive LitField (α : Type) where
  | absent
  | malformed
  | value (a : α)
deriving DecidableEq

/-- The decoded list of a list-valued literal field, empty unless the field
decodes successfully. -/
def LitField.listOf {α : Type} : LitField (List α) → List α
  | .value a => a
  | _ => []

/-- The resolved parameter set of configure.py (imported there as the params
module, populated by the external resolver).  Dictionary-valued literals are
modelled as association lists in their decoded iteration order. -/
structure Params where
  conf_dir : String
  catalog_dir : String
  pid_dir : String
  log_dir : String
  presto_plugin_dir : String
  source_plugin_dir : String
  presto_user : String
  user_group : String
  jvm_args : LitField (List String)
  catalog_properties : LitField (List (String × List String))
  addon_plugins : LitField (List (String × List String))
deriving DecidableEq

/-- Destination of the rendered primary configuration file,
configure.py line 36. -/
def configPropsPath (p : Params) : String := p.conf_dir ++ "/config.properties"

/-- Destination of the rendered node-identity file, configure.py line 37. -/
def nodePropsPath (p : Params) : String := p.conf_dir ++ "/node.properties"

/-- Destination of the appended JVM arguments, configure.py line 42. -/
def jvmConfigPath (p : Params) : String := p.conf_dir ++ "/jvm.config"

/-- Destination of the appended property lines of one catalog,
configure.py line 47. -/
def catalogPath (p : Params) (key : String) : String :=
  p.catalog_dir ++ slash ++ key ++ propsExt

/-- Destination directory of one plugin, configure.py line 52. -/
def pluginDirOf (p : Params) (key : String) : String :=
  joinPath p.presto_plugin_dir key

/-- Source path of one plugin artifact, configure.py line 56. -/
def srcOf (p : Params) (jar : String) : String :=
  joinPath p.source_plugin_dir jar

/-- Destination file of one copied plugin artifact: shutil.copy2 into a
directory stores the file under the source's base name. -/
def dstOf (p : Params) (key jar : String) : String :=
  joinPath (pluginDirOf p key) (baseName (srcOf p jar))

/-- Modelled from the spec: the external template renderer (the
resource_management TemplateConfig resource) looks up the template for the
destination's base name, substitutes parameter values, and writes the
rendered text, overwriting any existing file.  The rendered text itself is
outside this repository; we model it as a fixed function of the destination
path and of the template-selection tag. -/
def renderedText (path : String) (tag : Option String) : String :=
  match tag with
  | some t => "# rendered " ++ path ++ " tag=" ++ t ++ "\n"
  | none => "# rendered " ++ path ++ "\n"

/-- The text appended by one _store_configuration call: each element
followed by a newline, in sequence order (configure.py lines 59-62). -/
def appendBlock (lines : List String) : String :=
  String.join (lines.map (fun s => s ++ "\n"))

/-- The raised Python errors the materialization can surface in this model:
a malformed literal (ast.literal_eval raising), a missing copy source
(shutil.copy2 raising IOError), and a missing parent directory (os.mkdir
raising, reachable only in the spec-worded single-level variant). -/
inductive PyErr where
  | malformedLiteral
  | fileNotFound (path : String)
  | dirNotFound (path : String)
deriving DecidableEq

/-- One filesystem action performed by configure.py, in the order the script
issues them. -/
inductive Effect where
  | ensureDir (path owner group : String) (recur : Bool)
  | renderTemplate (path owner group : String) (tag : Option String)
  | appendLines (path : String) (lines : List String)
  | ensurePluginDir (path : String)
  | copy2 (src : String) (dstDir : String)
deriving DecidableEq

/-- The file path an effect writes (renders, appends to, or copies onto), if
any. -/
def Effect.writesTo : Effect → Option String
  | .ensureDir _ _ _ _ => none
  | .renderTemplate path _ _ _ => some path
  | .appendLines path _ => some path
  | .ensurePluginDir _ => none
  | .copy2 src dstDir => some (joinPath dstDir (baseName src))

/-- The path whose ownership an effect sets, if any: only the Directory and
TemplateConfig resources carry an owner and group. -/
def Effect.chownsTo : Effect → Option String
  | .ensureDir path _ _ _ => some path
  | .renderTemplate path _ _ _ => some path
  | _ => none

/-- Whether an effect is a plugin-artifact copy (the only effect of the
source-faithful executor that can raise). -/
def Effect.isCopy : Effect → Bool
  | .copy2 _ _ => true
  | _ => false

/-- Result of running the materialization: the filesystem state reached, the
ordered trace of effects actually performed, and the raised error if the run
aborted (side effects performed before the raise persist, as in Python). -/
structure Result where
  fs : FS
  trace : List Effect
  err : Option PyErr
deriving DecidableEq

/-- Modelled from configure.py lines 53-54 with the documented semantics of
os.makedirs: when the path does not yet exist, the leaf directory and all
missing intermediate directories are created. -/
def mkdirsIfAbsent (fs : FS) (path : String) : Except PyErr (List String) :=
  if pathExists fs path then .ok [] else .ok (mkdirsAdd path)

/-- Modelled from the spec: the words of the specification describe the
plugin-directory step as a non-recursive existence check followed by
single-level creation (os.mkdir), which raises when the parent directory
does not exist.  This definition follows the spec text and is compared
against the source-faithful mkdirsIfAbsent. -/
def mkdirSingleIfAbsent (fs : FS) (path : String) : Except PyErr (List String) :=
  if pathExists fs path then .ok []
  else if pathExists fs (parentDir path) then .ok [path]
  else .error (.dirNotFound path)

/-- Executes one effect on the filesystem, parameterized by the
plugin-directory creation semantics.  Directory and TemplateConfig are the
resource_management resources configure.py invokes (modelled from the spec:
recursive owned-directory creation, and template rendering that overwrites
the destination); appendLines is the open(path, a)-and-write loop of
_store_configuration; copy2 is shutil.copy2 of content plus metadata. -/
def runEffectWith (mkdirFn : FS → String → Except PyErr (List String)) (fs : FS) :
    Effect → Except PyErr FS
  | .ensureDir path owner group recur =>
      .ok { fs with
              dirs := (if recur then mkdirsAdd path else [path]) ++ fs.dirs,
              owns := (path, owner, group) :: fs.owns }
  | .renderTemplate path owner group tag =>
      .ok { fs with
              files := (path, ⟨renderedText path tag, 0⟩) :: fs.files,
              owns := (path, owner, group) :: fs.owns }
  | .appendLines path lines =>
      .ok { fs with
              files := (path, ⟨contentAt fs path ++ appendBlock lines, metaAt fs path⟩) :: fs.files }
  | .ensurePluginDir path =>
      match mkdirFn fs path with
      | .error e => .error e
      | .ok newDirs => .ok { fs with dirs := newDirs ++ fs.dirs }
  | .copy2 src dstDir =>
      match lookupFile fs src with
      | none => .error (.fileNotFound src)
      | some f => .ok { fs with files := (joinPath dstDir (baseName src), f) :: fs.files }

/-- Executes a list of effects in order, stopping at the first error; the
returned trace is the list of effects that actually completed. -/
def runEffectsWith (mkdirFn : FS → String → Except PyErr (List String)) :
    FS → List Effect → Result
  | fs, [] => ⟨fs, [], none⟩
  | fs, e :: es =>
      match runEffectWith mkdirFn fs e with
      | .error err => ⟨fs, [], some err⟩
      | .ok fs' =>
          let r := runEffectsWith mkdirFn fs' es
          ⟨r.fs, e :: r.trace, r.err⟩

/-- Runs a further effect list unless the materialization already raised. -/
def stepRun (mkdirFn : FS → String → Except PyErr (List String))
    (r : Result) (es : List Effect) : Result :=
  match r.err with
  | some _ => r
  | none =>
      let s := runEffectsWith mkdirFn r.fs es
      ⟨s.fs, r.trace ++ s.trace, s.err⟩

/-- Runs one optional literal-guarded step of configure.py: an absent field
is skipped, a malformed field raises (ast.literal_eval), a decoded field
yields its effects. -/
def stepLit {α : Type} (mkdirFn : FS → String → Except PyErr (List String))
    (r : Result) (field : LitField α) (effectsOf : α → List Effect) : Result :=
  match r.err with
  | some _ => r
  | none =>
      match field with
      | .absent => r
      | .malformed => ⟨r.fs, r.trace, some PyErr.malformedLiteral⟩
      | .value a => stepRun mkdirFn r (effectsOf a)

/-- The effect of the _directory helper, configure.py lines 64-69: the
Directory resource with the configured owner and group and recursive
creation. -/
def directoryEffect (path : String) (p : Params) : Effect :=
  .ensureDir path p.presto_user p.user_group true

/-- The effect of the _template_config helper, configure.py lines 72-77: the
TemplateConfig resource with the configured owner and group and the given
template tag. -/
def template_config (path : String) (p : Params) (tag : Option String) : Effect :=
  .renderTemplate path p.presto_user p.user_group tag

/-- The effect of the _store_configuration helper, configure.py lines 59-62:
open the destination in append mode and write each element followed by a
newline, in sequence order. -/
def store_configuration (parameters : List String) (path : String) : Effect :=
  .appendLines path parameters

/-- The unconditional first part of set_configuration, configure.py lines
31-37: four owned directories, then the two rendered templates (the primary
one tagged with the component role, the node one untagged). -/
def dirTemplateEffects (p : Params) (component : Option String) : List Effect :=
  [ directoryEffect p.conf_dir p,
    directoryEffect p.catalog_dir p,
    directoryEffect p.pid_dir p,
    directoryEffect p.log_dir p,
    template_config (configPropsPath p) p component,
    template_config (nodePropsPath p) p none ]

/-- The catalog-properties step, configure.py lines 44-47: one append per
catalog, in iteration order. -/
def catalogEffects (p : Params) (m : List (String × List String)) : List Effect :=
  m.map (fun kv => store_configuration kv.2 (catalogPath p kv.1))

/-- The actions for one addon plugin, configure.py lines 51-56: ensure its
destination directory, then copy each artifact in order. -/
def pluginBlock (p : Params) (key : String) (jars : List String) : List Effect :=
  Effect.ensurePluginDir (pluginDirOf p key) ::
    jars.map (fun jar => Effect.copy2 (srcOf p jar) (pluginDirOf p key))

/-- The addon-plugins step, configure.py lines 49-56. -/
def pluginEffects (p : Params) (m : List (String × List String)) : List Effect :=
  m.flatMap (fun kv => pluginBlock p kv.1 kv.2)

/-- The set_configuration entry point of configure.py (lines 23-56),
parameterized by the plugin-directory creation semantics. -/
def set_configuration_with (mkdirFn : FS → String → Except PyErr (List String))
    (component : Option String) (p : Params) (fs : FS) : Result :=
  let r1 := stepRun mkdirFn ⟨fs, [], none⟩ (dirTemplateEffects p component)
  let r2 := stepLit mkdirFn r1 p.jvm_args
    (fun args => [store_configuration args (jvmConfigPath p)])
  let r3 := stepLit mkdirFn r2 p.catalog_properties (fun m => catalogEffects p m)
  let r4 := stepLit mkdirFn r3 p.addon_plugins (fun m => pluginEffects p m)
  r4

/-- The set_configuration entry point with the source-faithful os.makedirs
semantics for plugin directories. -/
def set_configuration (component : Option String) (p : Params) (fs : FS) : Result :=
  set_configuration_with mkdirsIfAbsent component p fs

/-- Modelled from the spec: the same materialization, but with the
single-level plugin-directory creation the specification text describes. -/
def set_configuration_singleLevelCreate (component : Option String)
    (p : Params) (fs : FS) : Result :=
  set_configuration_with mkdirSingleIfAbsent component p fs

/-- The paths of the append effects of a trace, in order. -/
def appendPathsOf (es : List Effect) : List String :=
  es.filterMap (fun e =>
    match e with
    | .appendLines path _ => some path
    | _ => none)

/-- The destination files of the copy effects of a trace, in order. -/
def copyDstsOf (es : List Effect) : List String :=
  es.filterMap (fun e =>
    match e with
    | .copy2 src dstDir => some (joinPath dstDir (baseName src))
    | _ => none)

/-- The plugin directories ensured by a trace, in order. -/
def pluginDirsOf (es : List Effect) : List String :=
  es.filterMap (fun e =>
    match e with
    | .ensurePluginDir path => some path
    | _ => none)

/-- The paths whose ownership a trace sets: the Directory and TemplateConfig
resources are the only effects carrying an owner and group. -/
def chownTargetsOf (es : List Effect) : List String :=
  es.filterMap Effect.chownsTo

/-- No copy of the addon-plugins step (if any) lands on the given path. -/
def copyAvoids (p : Params) (q : String) : Prop :=
  ∀ kv ∈ p.addon_plugins.listOf, ∀ jar ∈ kv.2, dstOf p kv.1 jar ≠ q

instance (p : Params) (q : String) : Decidable (copyAvoids p q) :=
  inferInstanceAs
    (Decidable (∀ kv ∈ p.addon_plugins.listOf, ∀ jar ∈ kv.2, dstOf p kv.1 jar ≠ q))

/-- The catalog file of the given key does not collide with either rendered
template destination. -/
def noAliasTemplates (p : Params) (key : String) : Prop :=
  catalogPath p key ≠ configPropsPath p ∧ catalogPath p key ≠ nodePropsPath p

/-- Looks a path up in an ownership record list (most recent record
wins). -/
def ownsAtL (owns : List (String × String × String)) (path : String) :
    Option (String × String) :=
  match owns.find? (fun kv => kv.1 == path) with
  | some kv => some kv.2
  | none => none

/-- The ownership record currently in force for a path, if this run of the
model has set one. -/
def ownsAt (fs : FS) (path : String) : Option (String × String) :=
  ownsAtL fs.owns path

/-- The six paths that receive an ownership record on every invocation: the
four ensured directories and the two rendered templates, in order. -/
def chownTargetList (p : Params) : List String :=
  [p.conf_dir, p.catalog_dir, p.pid_dir, p.log_dir,
   configPropsPath p, nodePropsPath p]

/-- Computable prefix test on strings, via their character lists. -/
def strIsPrefixOf (a b : String) : Bool := a.data.isPrefixOf b.data

/-- A resolved parameter set with all optional fields absent, used as the
base of the concrete evaluation inputs. -/
def pBase : Params :=
  { conf_dir := "c", catalog_dir := "ct", pid_dir := "pd", log_dir := "lg",
    presto_plugin_dir := "opt/pl", source_plugin_dir := "sp",
    presto_user := "presto", user_group := "hadoop",
    jvm_args := .absent, catalog_properties := .absent, addon_plugins := .absent }

/-- An empty filesystem. -/
def fsEmpty : FS := ⟨[], [], []⟩

/-- Concrete input: JVM arguments as in the specification's example. -/
def pW2 : Params :=
  { pBase with jvm_args := .value ["-Xmx512m", "-Xms256m"] }

/-- Concrete input: a pre-existing JVM config file. -/
def fsW2 : FS := ⟨[("c/jvm.config", ⟨"OLD\n", 3⟩)], [], []⟩

/-- Concrete input: a malformed catalog-properties literal. -/
def pW3 : Params :=
  { pBase with jvm_args := .value ["-Xmx1g"], catalog_properties := .malformed,
               addon_plugins := .value [("myplugin", ["a.jar"])] }

/-- Concrete input: the hive catalog of the specification's example. -/
def pW4 : Params :=
  { pBase with catalog_properties := .value [("hive", ["connector.name=hive"])] }

/-- Concrete input: two catalogs, for the repeated-invocation property. -/
def pW5 : Params :=
  { pBase with catalog_properties := .value [("hive", ["connector.name=hive"]),
                                             ("tpch", ["connector.name=tpch"])] }

/-- Concrete input: JVM arguments and one empty catalog, both decoding to
empty line sequences. -/
def pW9 : Params :=
  { pBase with jvm_args := .value [], catalog_properties := .value [("hive", [])] }

/-- Concrete input whose catalog directory and catalog name collide with the
rendered node-identity template destination. -/
def pX1 : Params :=
  { pBase with catalog_dir := "c", catalog_properties := .value [("node", ["x=1"])] }

/-- Concrete input: pre-existing content at the colliding path. -/
def fsX1 : FS := ⟨[("c/node.properties", ⟨"X", 0⟩)], [], []⟩

/-- Concrete input: aliasing-free JVM and catalog fields together. -/
def pW1 : Params :=
  { pBase with jvm_args := .value ["-Xms1g"],
               catalog_properties := .value [("hive", ["a=1"])] }

/-- Concrete input: one plugin with one artifact, plugin root absent. -/
def pX8 : Params :=
  { pBase with addon_plugins := .value [("myplugin", ["a.jar"])] }

/-- Concrete input: the plugin artifact exists under the source directory. -/
def fsX8 : FS := ⟨[("sp/a.jar", ⟨"JAR", 7⟩)], [], []⟩

/-- Concrete input: one plugin with two artifacts. -/
def pW8 : Params :=
  { pBase with addon_plugins := .value [("myplugin", ["a.jar", "b.jar"])] }

/-- Concrete input: both artifacts exist, and a stale file already occupies
one copy destination. -/
def fsW8 : FS :=
  ⟨[("sp/a.jar", ⟨"A", 1⟩), ("sp/b.jar", ⟨"B", 2⟩),
    ("opt/pl/myplugin/a.jar", ⟨"STALE", 9⟩)], [], []⟩

/-- String concatenation is cancellative on the right. -/
theorem str_right_cancel {a b c : String} (h : a ++ c = b ++ c) : a = b := by
  apply String.ext
  have hd : a.data ++ c.data = b.data ++ c.data := by
    rw [← String.data_append, ← String.data_append, h]
  exact List.append_cancel_right hd

/-- String concatenation is cancellative on the left. -/
theorem str_left_cancel {a b c : String} (h : a ++ b = a ++ c) : b = c := by
  apply String.ext
  have hd : a.data ++ b.data = a.data ++ c.data := by
    rw [← String.data_append, ← String.data_append, h]
  exact List.append_cancel_left hd

/-- A string ending in the properties extension never equals one ending in
the config extension. -/
theorem props_ne_config (a b : String) : a ++ propsExt ≠ b ++ configExt := by
  intro h
  have hd : a.data ++ propsExt.data = b.data ++ configExt.data := by
    rw [← String.data_append, ← String.data_append, h]
  have hrev := congrArg List.reverse hd
  rw [List.reverse_append, List.reverse_append] at hrev
  have hp : propsExt.data.reverse = ['s','e','i','t','r','e','p','o','r','p','.'] := by decide
  have hc : configExt.data.reverse = ['g','i','f','n','o','c','.'] := by decide
  rw [hp, hc] at hrev
  simp only [List.cons_append] at hrev
  injection hrev with h1 _
  exact absurd h1 (by decide)

/-- The generated JVM config path, split at its extension. -/
theorem jvm_split (p : Params) : jvmConfigPath p = (p.conf_dir ++ "/jvm") ++ configExt := by
  show p.conf_dir ++ "/jvm.config" = (p.conf_dir ++ "/jvm") ++ configExt
  rw [String.append_assoc]
  have h2 : ("/jvm") ++ configExt = ("/jvm.config" : String) := by decide
  rw [h2]

/-- The rendered primary configuration path, split at its extension. -/
theorem configProps_split (p : Params) :
    configPropsPath p = (p.conf_dir ++ "/config") ++ propsExt := by
  show p.conf_dir ++ "/config.properties" = (p.conf_dir ++ "/config") ++ propsExt
  rw [String.append_assoc]
  have h2 : ("/config") ++ propsExt = ("/config.properties" : String) := by decide
  rw [h2]

/-- The rendered node-identity path, split at its extension. -/
theorem nodeProps_split (p : Params) :
    nodePropsPath p = (p.conf_dir ++ "/node") ++ propsExt := by
  show p.conf_dir ++ "/node.properties" = (p.conf_dir ++ "/node") ++ propsExt
  rw [String.append_assoc]
  have h2 : ("/node") ++ propsExt = ("/node.properties" : String) := by decide
  rw [h2]

/-- Distinct catalog names yield distinct catalog property files. -/
theorem catalogPath_inj {p : Params} {k1 k2 : String}
    (h : catalogPath p k1 = catalogPath p k2) : k1 = k2 := by
  have h1 : (p.catalog_dir ++ slash ++ k1) ++ propsExt
      = (p.catalog_dir ++ slash ++ k2) ++ propsExt := h
  exact str_left_cancel (str_right_cancel h1)

/-- A catalog property file never collides with the JVM config file. -/
theorem catalogPath_ne_jvm (p : Params) (key : String) :
    catalogPath p key ≠ jvmConfigPath p := by
  rw [jvm_split]
  exact props_ne_config _ _

/-- The rendered primary configuration file never collides with the JVM
config file. -/
theorem configProps_ne_jvm (p : Params) : configPropsPath p ≠ jvmConfigPath p := by
  rw [jvm_split, configProps_split]
  exact props_ne_config _ _

/-- The rendered node-identity file never collides with the JVM config
file. -/
theorem nodeProps_ne_jvm (p : Params) : nodePropsPath p ≠ jvmConfigPath p := by
  rw [jvm_split, nodeProps_split]
  exact props_ne_config _ _

/-- Looking up the path just written finds the new file. -/
theorem lookupFileL_cons_self (files : List (String × File)) (path : String) (f : File) :
    lookupFileL ((path, f) :: files) path = some f := by
  simp [lookupFileL, List.find?]

/-- Looking up any other path skips the new file. -/
theorem lookupFileL_cons_ne (files : List (String × File)) (path : String) (f : File)
    {q : String} (h : path ≠ q) :
    lookupFileL ((path, f) :: files) q = lookupFileL files q := by
  simp only [lookupFileL, List.find?]
  have hb : (path == q) = false := by
    exact beq_eq_false_iff_ne.mpr h
  rw [hb]

/-- Skipping an ownership record for a different path. -/
theorem ownsAtL_cons_ne (owns : List (String × String × String)) (path : String)
    (og : String × String) {q : String} (h : path ≠ q) :
    ownsAtL ((path, og) :: owns) q = ownsAtL owns q := by
  simp only [ownsAtL, List.find?]
  have hb : (path == q) = false := beq_eq_false_iff_ne.mpr h
  rw [hb]

/-- An effect that does not write the path leaves the file there
unchanged. -/
theorem runEffectWith_files_frame (mk : FS → String → Except PyErr (List String))
    (fs : FS) (e : Effect) {fs' : FS} {q : String}
    (hok : runEffectWith mk fs e = .ok fs') (hw : e.writesTo ≠ some q) :
    lookupFile fs' q = lookupFile fs q := by
  cases e with
  | ensureDir path owner group recur =>
      simp only [runEffectWith, Except.ok.injEq] at hok
      subst hok; rfl
  | renderTemplate path owner group tag =>
      simp only [runEffectWith, Except.ok.injEq] at hok
      subst hok
      have hne : path ≠ q := by
        intro hpq; exact hw (by rw [Effect.writesTo, hpq])
      exact lookupFileL_cons_ne _ _ _ hne
  | appendLines path lines =>
      simp only [runEffectWith, Except.ok.injEq] at hok
      subst hok
      have hne : path ≠ q := by
        intro hpq; exact hw (by rw [Effect.writesTo, hpq])
      exact lookupFileL_cons_ne _ _ _ hne
  | ensurePluginDir path =>
      simp only [runEffectWith] at hok
      cases hmk : mk fs path with
      | error err => rw [hmk] at hok; exact absurd hok (by simp)
      | ok newDirs =>
          rw [hmk] at hok
          simp only [Except.ok.injEq] at hok
          subst hok; rfl
  | copy2 src dstDir =>
      simp only [runEffectWith] at hok
      cases hlf : lookupFile fs src with
      | none => rw [hlf] at hok; exact absurd hok (by simp)
      | some f =>
          rw [hlf] at hok
          simp only [Except.ok.injEq] at hok
          subst hok
          have hne : joinPath dstDir (baseName src) ≠ q := by
            intro hpq; exact hw (by rw [Effect.writesTo, hpq])
          exact lookupFileL_cons_ne _ _ _ hne

/-- An effect never removes an existing directory. -/
theorem runEffectWith_dirs_mono (mk : FS → String → Except PyErr (List String))
    (fs : FS) (e : Effect) {fs' : FS} {q : String}
    (hok : runEffectWith mk fs e = .ok fs') (hq : q ∈ fs.dirs) : q ∈ fs'.dirs := by
  cases e with
  | ensureDir path owner group recur =>
      simp only [runEffectWith, Except.ok.injEq] at hok
      subst hok; exact List.mem_append_right _ hq
  | renderTemplate path owner group tag =>
      simp only [runEffectWith, Except.ok.injEq] at hok
      subst hok; exact hq
  | appendLines path lines =>
      simp only [runEffectWith, Except.ok.injEq] at hok
      subst hok; exact hq
  | ensurePluginDir path =>
      simp only [runEffectWith] at hok
      cases hmk : mk fs path with
      | error err => rw [hmk] at hok; exact absurd hok (by simp)
      | ok newDirs =>
          rw [hmk] at hok
          simp only [Except.ok.injEq] at hok
          subst hok; exact List.mem_append_right _ hq
  | copy2 src dstDir =>
      simp only [runEffectWith] at hok
      cases hlf : lookupFile fs src with
      | none => rw [hlf] at hok; exact absurd hok (by simp)
      | some f =>
          rw [hlf] at hok
          simp only [Except.ok.injEq] at hok
          subst hok; exact hq

/-- An effect that does not set ownership of the path leaves its ownership
record unchanged. -/
theorem runEffectWith_owns_frame (mk : FS → String → Except PyErr (List String))
    (fs : FS) (e : Effect) {fs' : FS} {q : String}
    (hok : runEffectWith mk fs e = .ok fs') (hc : e.chownsTo ≠ some q) :
    ownsAt fs' q = ownsAt fs q := by
  cases e with
  | ensureDir path owner group recur =>
      simp only [runEffectWith, Except.ok.injEq] at hok
      subst hok
      have hne : path ≠ q := by
        intro hpq; exact hc (by rw [Effect.chownsTo, hpq])
      exact ownsAtL_cons_ne _ _ _ hne
  | renderTemplate path owner group tag =>
      simp only [runEffectWith, Except.ok.injEq] at hok
      subst hok
      have hne : path ≠ q := by
        intro hpq; exact hc (by rw [Effect.chownsTo, hpq])
      exact ownsAtL_cons_ne _ _ _ hne
  | appendLines path lines =>
      simp only [runEffectWith, Except.ok.injEq] at hok
      subst hok; rfl
  | ensurePluginDir path =>
      simp only [runEffectWith] at hok
      cases hmk : mk fs path with
      | error err => rw [hmk] at hok; exact absurd hok (by simp)
      | ok newDirs =>
          rw [hmk] at hok
          simp only [Except.ok.injEq] at hok
          subst hok; rfl
  | copy2 src dstDir =>
      simp only [runEffectWith] at hok
      cases hlf : lookupFile fs src with
      | none => rw [hlf] at hok; exact absurd hok (by simp)
      | some f =>
          rw [hlf] at hok
          simp only [Except.ok.injEq] at hok
          subst hok; rfl

/-- Defining equation of the effect-list runner for a successful head. -/
theorem runEffectsWith_cons_ok (mk : FS → String → Except PyErr (List String))
    {fs fs' : FS} {e : Effect} (es : List Effect)
    (hok : runEffectWith mk fs e = .ok fs') :
    runEffectsWith mk fs (e :: es) =
      ⟨(runEffectsWith mk fs' es).fs, e :: (runEffectsWith mk fs' es).trace,
       (runEffectsWith mk fs' es).err⟩ := by
  simp only [runEffectsWith]
  rw [hok]

/-- Defining equation of the effect-list runner for a failing head. -/
theorem runEffectsWith_cons_err (mk : FS → String → Except PyErr (List String))
    {fs : FS} {e : Effect} (es : List Effect) {err : PyErr}
    (herr : runEffectWith mk fs e = .error err) :
    runEffectsWith mk fs (e :: es) = ⟨fs, [], some err⟩ := by
  simp only [runEffectsWith]
  rw [herr]

/-- Running a list of effects, none of which writes the path, leaves the
file there unchanged (this also covers runs that abort partway). -/
theorem runEffectsWith_files_frame (mk : FS → String → Except PyErr (List String)) :
    ∀ (es : List Effect) (fs : FS) {q : String},
    (∀ e ∈ es, e.writesTo ≠ some q) →
    lookupFile (runEffectsWith mk fs es).fs q = lookupFile fs q := by
  intro es
  induction es with
  | nil => intro fs q _; rfl
  | cons e es ih =>
      intro fs q h
      simp only [runEffectsWith]
      cases hok : runEffectWith mk fs e with
      | error err => rfl
      | ok fs' =>
          have h1 := runEffectWith_files_frame mk fs e hok (h e (List.mem_cons_self e es))
          have h2 := ih fs' (fun e' he' => h e' (List.mem_cons_of_mem e he'))
          simp only []
          rw [h2, h1]

/-- Running a list of effects never removes an existing directory. -/
theorem runEffectsWith_dirs_mono (mk : FS → String → Except PyErr (List String)) :
    ∀ (es : List Effect) (fs : FS) {q : String},
    q ∈ fs.dirs → q ∈ (runEffectsWith mk fs es).fs.dirs := by
  intro es
  induction es with
  | nil => intro fs q h; exact h
  | cons e es ih =>
      intro fs q h
      simp only [runEffectsWith]
      cases hok : runEffectWith mk fs e with
      | error err => exact h
      | ok fs' => exact ih fs' (runEffectWith_dirs_mono mk fs e hok h)

/-- Running a list of effects, none of which sets ownership of the path,
leaves its ownership record unchanged. -/
theorem runEffectsWith_owns_frame (mk : FS → String → Except PyErr (List String)) :
    ∀ (es : List Effect) (fs : FS) {q : String},
    (∀ e ∈ es, e.chownsTo ≠ some q) →
    ownsAt (runEffectsWith mk fs es).fs q = ownsAt fs q := by
  intro es
  induction es with
  | nil => intro fs q _; rfl
  | cons e es ih =>
      intro fs q h
      simp only [runEffectsWith]
      cases hok : runEffectWith mk fs e with
      | error err => rfl
      | ok fs' =>
          have h1 := runEffectWith_owns_frame mk fs e hok (h e (List.mem_cons_self e es))
          have h2 := ih fs' (fun e' he' => h e' (List.mem_cons_of_mem e he'))
          simp only []
          rw [h2, h1]

/-- The performed trace only contains effects of the requested list. -/
theorem runEffectsWith_trace_sub (mk : FS → String → Except PyErr (List String)) :
    ∀ (es : List Effect) (fs : FS),
    ∀ e ∈ (runEffectsWith mk fs es).trace, e ∈ es := by
  intro es
  induction es with
  | nil => intro fs e he; exact absurd he (by simp [runEffectsWith])
  | cons e es ih =>
      intro fs e' he'
      simp only [runEffectsWith] at he'
      cases hok : runEffectWith mk fs e with
      | error err => rw [hok] at he'; exact absurd he' (by simp)
      | ok fs' =>
          rw [hok] at he'
          simp only [List.mem_cons] at he'
          cases he' with
          | inl h => exact h ▸ List.mem_cons_self e es
          | inr h => exact List.mem_cons_of_mem e (ih fs' e' h)

/-- A run that raised no error performed every requested effect. -/
theorem runEffectsWith_err_none_trace (mk : FS → String → Except PyErr (List String)) :
    ∀ (es : List Effect) (fs : FS),
    (runEffectsWith mk fs es).err = none → (runEffectsWith mk fs es).trace = es := by
  intro es
  induction es with
  | nil => intro fs _; rfl
  | cons e es ih =>
      intro fs hn
      cases hok : runEffectWith mk fs e with
      | error err =>
          rw [runEffectsWith_cons_err mk es hok] at hn
          exact absurd hn (by simp)
      | ok fs' =>
          rw [runEffectsWith_cons_ok mk es hok] at hn ⊢
          dsimp only at hn ⊢
          rw [ih fs' hn]

/-- Running a concatenation whose first part succeeds equals running the
parts in sequence. -/
theorem runEffectsWith_append (mk : FS → String → Except PyErr (List String)) :
    ∀ (es1 es2 : List Effect) (fs : FS),
    (runEffectsWith mk fs es1).err = none →
    runEffectsWith mk fs (es1 ++ es2) =
      ⟨(runEffectsWith mk (runEffectsWith mk fs es1).fs es2).fs,
       es1 ++ (runEffectsWith mk (runEffectsWith mk fs es1).fs es2).trace,
       (runEffectsWith mk (runEffectsWith mk fs es1).fs es2).err⟩ := by
  intro es1
  induction es1 with
  | nil => intro es2 fs _; simp only [List.nil_append, runEffectsWith]
  | cons e es1 ih =>
      intro es2 fs hn
      cases hok : runEffectWith mk fs e with
      | error err =>
          rw [runEffectsWith_cons_err mk es1 hok] at hn
          exact absurd hn (by simp)
      | ok fs' =>
          rw [runEffectsWith_cons_ok mk es1 hok] at hn
          dsimp only at hn
          rw [List.cons_append, runEffectsWith_cons_ok mk (es1 ++ es2) hok,
              runEffectsWith_cons_ok mk es1 hok]
          dsimp only
          rw [ih es2 fs' hn]
          simp [List.cons_append]

/-- Every non-copy effect succeeds under the source-faithful executor. -/
theorem runEffectWith_mkdirs_ok (fs : FS) (e : Effect) (h : e.isCopy = false) :
    ∃ fs', runEffectWith mkdirsIfAbsent fs e = .ok fs' := by
  cases e with
  | ensureDir path owner group recur => exact ⟨_, rfl⟩
  | renderTemplate path owner group tag => exact ⟨_, rfl⟩
  | appendLines path lines => exact ⟨_, rfl⟩
  | ensurePluginDir path =>
      simp only [runEffectWith, mkdirsIfAbsent]
      by_cases hex : pathExists fs path
      · rw [if_pos hex]; exact ⟨_, rfl⟩
      · rw [if_neg hex]; exact ⟨_, rfl⟩
  | copy2 src dstDir => exact absurd h (by simp [Effect.isCopy])

/-- A copy-free effect list runs to completion under the source-faithful
executor: no error, full trace. -/
theorem runEffects_noCopy :
    ∀ (es : List Effect), (∀ e ∈ es, e.isCopy = false) → ∀ (fs : FS),
    (runEffectsWith mkdirsIfAbsent fs es).err = none ∧
    (runEffectsWith mkdirsIfAbsent fs es).trace = es := by
  intro es
  induction es with
  | nil => intro _ fs; exact ⟨rfl, rfl⟩
  | cons e es ih =>
      intro h fs
      obtain ⟨fs', hok⟩ := runEffectWith_mkdirs_ok fs e (h e (List.mem_cons_self e es))
      have hrest := ih (fun e' he' => h e' (List.mem_cons_of_mem e he')) fs'
      simp only [runEffectsWith]
      rw [hok]
      exact ⟨hrest.1, by simp only []; rw [hrest.2]⟩

/-- Content of a path with a known file. -/
theorem contentAt_of_lookup {fs : FS} {path : String} {f : File}
    (h : lookupFile fs path = some f) : contentAt fs path = f.content := by
  simp [contentAt, h]

/-- Appending the empty block leaves a string unchanged. -/
theorem str_append_emptyStr (s : String) : s ++ emptyStr = s := by
  apply String.ext
  rw [String.data_append]
  show s.data ++ [] = s.data
  exact List.append_nil s.data

/-- The append block of no lines is empty. -/
theorem appendBlock_nil : appendBlock [] = emptyStr := rfl

/-- Result of running a single append effect: the destination now holds its
previous content (empty for a fresh file) followed by the block, its
metadata stamp unchanged, and nothing else moved. -/
theorem run_append_one (mk : FS → String → Except PyErr (List String))
    (fs : FS) (path : String) (lines : List String) :
    runEffectsWith mk fs [Effect.appendLines path lines] =
      ⟨⟨(path, ⟨contentAt fs path ++ appendBlock lines, metaAt fs path⟩) :: fs.files,
        fs.dirs, fs.owns⟩, [Effect.appendLines path lines], none⟩ := rfl

/-- A materialization step after a raise does nothing. -/
theorem stepRun_of_err (mk : FS → String → Except PyErr (List String))
    {r : Result} (es : List Effect) {e0 : PyErr} (h : r.err = some e0) :
    stepRun mk r es = r := by
  simp [stepRun, h]

/-- An error-free materialization step runs its effects. -/
theorem stepRun_of_none (mk : FS → String → Except PyErr (List String))
    {r : Result} (es : List Effect) (h : r.err = none) :
    stepRun mk r es =
      ⟨(runEffectsWith mk r.fs es).fs, r.trace ++ (runEffectsWith mk r.fs es).trace,
       (runEffectsWith mk r.fs es).err⟩ := by
  simp [stepRun, h]

/-- A literal-guarded step after a raise does nothing. -/
theorem stepLit_of_err {α : Type} (mk : FS → String → Except PyErr (List String))
    {r : Result} (field : LitField α) (g : α → List Effect) {e0 : PyErr}
    (h : r.err = some e0) : stepLit mk r field g = r := by
  simp [stepLit, h]

/-- An absent optional field is skipped. -/
theorem stepLit_absent {α : Type} (mk : FS → String → Except PyErr (List String))
    (r : Result) (g : α → List Effect) :
    stepLit mk r LitField.absent g = r := by
  cases h : r.err with
  | none => simp [stepLit, h]
  | some e0 => simp [stepLit, h]

/-- A malformed optional field raises, keeping state and trace. -/
theorem stepLit_malformed {α : Type} (mk : FS → String → Except PyErr (List String))
    {r : Result} (g : α → List Effect) (h : r.err = none) :
    stepLit mk r LitField.malformed g = ⟨r.fs, r.trace, some PyErr.malformedLiteral⟩ := by
  simp [stepLit, h]

/-- A decoded optional field runs its effects. -/
theorem stepLit_value {α : Type} (mk : FS → String → Except PyErr (List String))
    {r : Result} (a : α) (g : α → List Effect) (h : r.err = none) :
    stepLit mk r (LitField.value a) g = stepRun mk r (g a) := by
  simp [stepLit, h]

/-- File frame through one literal-guarded step. -/
theorem stepLit_files_frame {α : Type} (mk : FS → String → Except PyErr (List String))
    (r : Result) (field : LitField α) (g : α → List Effect) {q : String}
    (h : ∀ a, field = LitField.value a → ∀ e ∈ g a, e.writesTo ≠ some q) :
    lookupFile (stepLit mk r field g).fs q = lookupFile r.fs q := by
  cases herr : r.err with
  | some e0 => rw [stepLit_of_err mk field g herr]
  | none =>
      cases field with
      | absent => rw [stepLit_absent]
      | malformed => rw [stepLit_malformed mk g herr]
      | value a =>
          rw [stepLit_value mk a g herr, stepRun_of_none mk (g a) herr]
          exact runEffectsWith_files_frame mk (g a) r.fs (h a rfl)

/-- Ownership frame through one literal-guarded step. -/
theorem stepLit_owns_frame {α : Type} (mk : FS → String → Except PyErr (List String))
    (r : Result) (field : LitField α) (g : α → List Effect) {q : String}
    (h : ∀ a, field = LitField.value a → ∀ e ∈ g a, e.chownsTo ≠ some q) :
    ownsAt (stepLit mk r field g).fs q = ownsAt r.fs q := by
  cases herr : r.err with
  | some e0 => rw [stepLit_of_err mk field g herr]
  | none =>
      cases field with
      | absent => rw [stepLit_absent]
      | malformed => rw [stepLit_malformed mk g herr]
      | value a =>
          rw [stepLit_value mk a g herr, stepRun_of_none mk (g a) herr]
          exact runEffectsWith_owns_frame mk (g a) r.fs (h a rfl)

/-- Directory monotonicity through one literal-guarded step. -/
theorem stepLit_dirs_mono {α : Type} (mk : FS → String → Except PyErr (List String))
    (r : Result) (field : LitField α) (g : α → List Effect) {q : String}
    (h : q ∈ r.fs.dirs) : q ∈ (stepLit mk r field g).fs.dirs := by
  cases herr : r.err with
  | some e0 => rw [stepLit_of_err mk field g herr]; exact h
  | none =>
      cases field with
      | absent => rw [stepLit_absent]; exact h
      | malformed => rw [stepLit_malformed mk g herr]; exact h
      | value a =>
          rw [stepLit_value mk a g herr, stepRun_of_none mk (g a) herr]
          exact runEffectsWith_dirs_mono mk (g a) r.fs h

/-- The trace grows by effects of the decoded field only. -/
theorem stepLit_trace {α : Type} (mk : FS → String → Except PyErr (List String))
    (r : Result) (field : LitField α) (g : α → List Effect) :
    ∃ t, (stepLit mk r field g).trace = r.trace ++ t ∧
      ∀ e ∈ t, ∃ a, field = LitField.value a ∧ e ∈ g a := by
  cases herr : r.err with
  | some e0 =>
      refine ⟨[], ?_, by simp⟩
      rw [stepLit_of_err mk field g herr, List.append_nil]
  | none =>
      cases field with
      | absent =>
          refine ⟨[], ?_, by simp⟩
          rw [stepLit_absent, List.append_nil]
      | malformed =>
          refine ⟨[], ?_, by simp⟩
          rw [stepLit_malformed mk g herr, List.append_nil]
      | value a =>
          rw [stepLit_value mk a g herr, stepRun_of_none mk (g a) herr]
          refine ⟨(runEffectsWith mk r.fs (g a)).trace, rfl, ?_⟩
          intro e he
          exact ⟨a, rfl, runEffectsWith_trace_sub mk (g a) r.fs e he⟩

/-- The unconditional first step contains no copy effect. -/
theorem dirTemplate_noCopy (p : Params) (comp : Option String) :
    ∀ e ∈ dirTemplateEffects p comp, e.isCopy = false := by
  intro e he
  simp only [dirTemplateEffects, directoryEffect, template_config,
    List.mem_cons, List.not_mem_nil, or_false] at he
  rcases he with rfl | rfl | rfl | rfl | rfl | rfl <;> rfl

/-- The unconditional first step writes only the two template files. -/
theorem dirTemplate_writes (p : Params) (comp : Option String) :
    ∀ e ∈ dirTemplateEffects p comp,
      e.writesTo = none ∨ e.writesTo = some (configPropsPath p) ∨
      e.writesTo = some (nodePropsPath p) := by
  intro e he
  simp only [dirTemplateEffects, directoryEffect, template_config,
    List.mem_cons, List.not_mem_nil, or_false] at he
  rcases he with rfl | rfl | rfl | rfl | rfl | rfl
  · exact Or.inl rfl
  · exact Or.inl rfl
  · exact Or.inl rfl
  · exact Or.inl rfl
  · exact Or.inr (Or.inl rfl)
  · exact Or.inr (Or.inr rfl)

/-- The ownership records of the unconditional first step are exactly the
six fixed targets, in order. -/
theorem dirTemplate_chownTargets (p : Params) (comp : Option String) :
    chownTargetsOf (dirTemplateEffects p comp) = chownTargetList p := rfl

/-- Every catalog-step effect is the append for one catalog entry. -/
theorem catalogEffects_mem {p : Params} {m : List (String × List String)} {e : Effect}
    (he : e ∈ catalogEffects p m) :
    ∃ kv, kv ∈ m ∧ e = Effect.appendLines (catalogPath p kv.1) kv.2 := by
  simp only [catalogEffects, store_configuration, List.mem_map] at he
  obtain ⟨kv, hkv, rfl⟩ := he
  exact ⟨kv, hkv, rfl⟩

/-- The catalog step contains no copy effect. -/
theorem catalogEffects_noCopy (p : Params) (m : List (String × List String)) :
    ∀ e ∈ catalogEffects p m, e.isCopy = false := by
  intro e he
  obtain ⟨kv, _, rfl⟩ := catalogEffects_mem he
  rfl

/-- The catalog step sets no ownership. -/
theorem catalogEffects_chowns (p : Params) (m : List (String × List String)) :
    ∀ e ∈ catalogEffects p m, e.chownsTo = none := by
  intro e he
  obtain ⟨kv, _, rfl⟩ := catalogEffects_mem he
  rfl

/-- Every plugin-step effect is either a plugin-directory creation or the
copy of one artifact of one plugin. -/
theorem pluginEffects_mem {p : Params} {m : List (String × List String)} {e : Effect}
    (he : e ∈ pluginEffects p m) :
    (∃ kv, kv ∈ m ∧ e = Effect.ensurePluginDir (pluginDirOf p kv.1)) ∨
    (∃ kv, kv ∈ m ∧ ∃ jar ∈ kv.2, e = Effect.copy2 (srcOf p jar) (pluginDirOf p kv.1)) := by
  simp only [pluginEffects, List.mem_flatMap] at he
  obtain ⟨kv, hkv, hin⟩ := he
  simp only [pluginBlock, List.mem_cons, List.mem_map] at hin
  cases hin with
  | inl h => exact Or.inl ⟨kv, hkv, h⟩
  | inr h =>
      obtain ⟨jar, hjar, rfl⟩ := h
      exact Or.inr ⟨kv, hkv, jar, hjar, rfl⟩

/-- The plugin step sets no ownership. -/
theorem pluginEffects_chowns (p : Params) (m : List (String × List String)) :
    ∀ e ∈ pluginEffects p m, e.chownsTo = none := by
  intro e he
  rcases pluginEffects_mem he with ⟨kv, _, rfl⟩ | ⟨kv, _, jar, _, rfl⟩ <;> rfl

/-- What the plugin step writes: only copy destinations. -/
theorem pluginEffects_writes {p : Params} {m : List (String × List String)} {e : Effect}
    (he : e ∈ pluginEffects p m) :
    e.writesTo = none ∨
    ∃ kv, kv ∈ m ∧ ∃ jar ∈ kv.2, e.writesTo = some (dstOf p kv.1 jar) := by
  rcases pluginEffects_mem he with ⟨kv, _, rfl⟩ | ⟨kv, hkv, jar, hjar, rfl⟩
  · exact Or.inl rfl
  · exact Or.inr ⟨kv, hkv, jar, hjar, rfl⟩

/-- Every effect preserves path existence. -/
theorem runEffectWith_pathExists_mono (mk : FS → String → Except PyErr (List String))
    (fs : FS) (e : Effect) {fs' : FS} {q : String}
    (hok : runEffectWith mk fs e = .ok fs') (hq : pathExists fs q = true) :
    pathExists fs' q = true := by
  have hfile : ∀ (files : List (String × File)) (hd : String × File),
      (lookupFileL files q).isSome = true → (lookupFileL (hd :: files) q).isSome = true := by
    intro files hd hsome
    by_cases hqe : hd.1 = q
    · cases hd
      subst hqe
      rw [lookupFileL_cons_self]
      rfl
    · cases hd
      rw [lookupFileL_cons_ne _ _ _ hqe]
      exact hsome
  cases e with
  | ensureDir path owner group recur =>
      simp only [runEffectWith, Except.ok.injEq] at hok
      subst hok
      simp only [pathExists, Bool.or_eq_true, List.contains, List.elem_eq_mem,
        decide_eq_true_eq] at hq ⊢
      rcases hq with hq | hq
      · exact Or.inl (List.mem_append_right _ hq)
      · exact Or.inr hq
  | renderTemplate path owner group tag =>
      simp only [runEffectWith, Except.ok.injEq] at hok
      subst hok
      simp only [pathExists, Bool.or_eq_true] at hq ⊢
      rcases hq with hq | hq
      · exact Or.inl hq
      · exact Or.inr (hfile _ _ hq)
  | appendLines path lines =>
      simp only [runEffectWith, Except.ok.injEq] at hok
      subst hok
      simp only [pathExists, Bool.or_eq_true] at hq ⊢
      rcases hq with hq | hq
      · exact Or.inl hq
      · exact Or.inr (hfile _ _ hq)
  | ensurePluginDir path =>
      simp only [runEffectWith] at hok
      cases hmk : mk fs path with
      | error err => rw [hmk] at hok; exact absurd hok (by simp)
      | ok newDirs =>
          rw [hmk] at hok
          simp only [Except.ok.injEq] at hok
          subst hok
          simp only [pathExists, Bool.or_eq_true, List.contains, List.elem_eq_mem,
            decide_eq_true_eq] at hq ⊢
          rcases hq with hq | hq
          · exact Or.inl (List.mem_append_right _ hq)
          · exact Or.inr hq
  | copy2 src dstDir =>
      simp only [runEffectWith] at hok
      cases hlf : lookupFile fs src with
      | none => rw [hlf] at hok; exact absurd hok (by simp)
      | some f =>
          rw [hlf] at hok
          simp only [Except.ok.injEq] at hok
          subst hok
          simp only [pathExists, Bool.or_eq_true] at hq ⊢
          rcases hq with hq | hq
          · exact Or.inl hq
          · exact Or.inr (hfile _ _ hq)

/-- Running a list of effects preserves path existence. -/
theorem runEffectsWith_pathExists_mono (mk : FS → String → Except PyErr (List String)) :
    ∀ (es : List Effect) (fs : FS) {q : String},
    pathExists fs q = true → pathExists (runEffectsWith mk fs es).fs q = true := by
  intro es
  induction es with
  | nil => intro fs q h; exact h
  | cons e es ih =>
      intro fs q h
      cases hok : runEffectWith mk fs e with
      | error err => rw [runEffectsWith_cons_err mk es hok]; exact h
      | ok fs' =>
          rw [runEffectsWith_cons_ok mk es hok]
          exact ih fs' (runEffectWith_pathExists_mono mk fs e hok h)

/-- Equal lookups give equal contents. -/
theorem contentAt_congr {fs1 fs2 : FS} {q : String}
    (h : lookupFile fs1 q = lookupFile fs2 q) : contentAt fs1 q = contentAt fs2 q := by
  simp [contentAt, h]

/-- Equal lookups give equal metadata stamps. -/
theorem metaAt_congr {fs1 fs2 : FS} {q : String}
    (h : lookupFile fs1 q = lookupFile fs2 q) : metaAt fs1 q = metaAt fs2 q := by
  simp [metaAt, h]

/-- After a copy-free run containing an owned-directory effect, that
directory exists. -/
theorem runEffects_ensureDir_mem :
    ∀ (es : List Effect) (fs : FS) {path o g : String} {b : Bool},
    Effect.ensureDir path o g b ∈ es → (∀ e ∈ es, e.isCopy = false) →
    path ∈ (runEffectsWith mkdirsIfAbsent fs es).fs.dirs := by
  intro es
  induction es with
  | nil => intro fs path o g b hmem _; exact absurd hmem (List.not_mem_nil _)
  | cons e es ih =>
      intro fs path o g b hmem hnc
      obtain ⟨fs', hok⟩ := runEffectWith_mkdirs_ok fs e (hnc e (List.mem_cons_self e es))
      rw [runEffectsWith_cons_ok mkdirsIfAbsent es hok]
      rcases List.mem_cons.mp hmem with heq | hmem'
      · subst heq
        simp only [runEffectWith, Except.ok.injEq] at hok
        subst hok
        apply runEffectsWith_dirs_mono
        cases b with
        | true => exact List.mem_append_left _ (List.mem_cons_self _ _)
        | false => exact List.mem_append_left _ (List.mem_cons_self _ _)
      · exact ih fs' hmem' (fun e' he' => hnc e' (List.mem_cons_of_mem e he'))

/-- After a successful run containing a plugin-directory effect, that path
exists. -/
theorem runEffects_pluginDir_exists :
    ∀ (es : List Effect) (fs : FS) {path : String},
    Effect.ensurePluginDir path ∈ es →
    (runEffectsWith mkdirsIfAbsent fs es).err = none →
    pathExists (runEffectsWith mkdirsIfAbsent fs es).fs path = true := by
  intro es
  induction es with
  | nil => intro fs path hmem _; exact absurd hmem (List.not_mem_nil _)
  | cons e es ih =>
      intro fs path hmem hn
      cases hok : runEffectWith mkdirsIfAbsent fs e with
      | error err =>
          rw [runEffectsWith_cons_err mkdirsIfAbsent es hok] at hn
          exact absurd hn (by simp)
      | ok fs' =>
          rw [runEffectsWith_cons_ok mkdirsIfAbsent es hok] at hn ⊢
          dsimp only at hn ⊢
          rcases List.mem_cons.mp hmem with heq | hmem'
          · subst heq
            apply runEffectsWith_pathExists_mono
            simp only [runEffectWith, mkdirsIfAbsent] at hok
            by_cases hex : pathExists fs path
            · rw [if_pos hex] at hok
              simp only [Except.ok.injEq] at hok
              subst hok
              simp only [pathExists, List.nil_append, Bool.or_eq_true] at hex ⊢
              exact hex
            · rw [if_neg hex] at hok
              simp only [Except.ok.injEq] at hok
              subst hok
              simp only [pathExists, Bool.or_eq_true, List.contains, List.elem_eq_mem,
                decide_eq_true_eq]
              exact Or.inl (List.mem_append_left _ (List.mem_cons_self _ _))
          · exact ih fs' hmem' hn

/-- The materialization, written as its four sequential steps. -/
theorem set_configuration_unfold (comp : Option String) (p : Params) (fs : FS) :
    set_configuration comp p fs =
      stepLit mkdirsIfAbsent
        (stepLit mkdirsIfAbsent
          (stepLit mkdirsIfAbsent
            (stepRun mkdirsIfAbsent ⟨fs, [], none⟩ (dirTemplateEffects p comp))
            p.jvm_args (fun args => [store_configuration args (jvmConfigPath p)]))
          p.catalog_properties (fun m => catalogEffects p m))
        p.addon_plugins (fun m => pluginEffects p m) := rfl

/-- The unconditional first step never raises. -/
theorem step1_err (comp : Option String) (p : Params) (fs : FS) :
    (stepRun mkdirsIfAbsent ⟨fs, [], none⟩ (dirTemplateEffects p comp)).err = none := by
  rw [stepRun_of_none mkdirsIfAbsent _ rfl]
  exact (runEffects_noCopy _ (dirTemplate_noCopy p comp) fs).1

/-- The unconditional first step performs exactly its six effects. -/
theorem step1_trace (comp : Option String) (p : Params) (fs : FS) :
    (stepRun mkdirsIfAbsent ⟨fs, [], none⟩ (dirTemplateEffects p comp)).trace =
      dirTemplateEffects p comp := by
  rw [stepRun_of_none mkdirsIfAbsent _ rfl]
  dsimp only
  rw [(runEffects_noCopy _ (dirTemplate_noCopy p comp) fs).2]
  exact List.nil_append _

/-- The unconditional first step leaves every path other than the two
template destinations unchanged. -/
theorem step1_files (comp : Option String) (p : Params) (fs : FS) {q : String}
    (h1 : configPropsPath p ≠ q) (h2 : nodePropsPath p ≠ q) :
    lookupFile (stepRun mkdirsIfAbsent ⟨fs, [], none⟩ (dirTemplateEffects p comp)).fs q =
      lookupFile fs q := by
  rw [stepRun_of_none mkdirsIfAbsent _ rfl]
  dsimp only
  apply runEffectsWith_files_frame
  intro e he hw
  rcases dirTemplate_writes p comp e he with h | h | h
  · rw [h] at hw; exact Option.noConfusion hw
  · rw [h] at hw
    exact h1 (Option.some.injEq _ _ ▸ hw)
  · rw [h] at hw
    exact h2 (Option.some.injEq _ _ ▸ hw)

/-- After the unconditional first step the four directories exist. -/
theorem step1_dirs (comp : Option String) (p : Params) (fs : FS) :
    p.conf_dir ∈ (stepRun mkdirsIfAbsent ⟨fs, [], none⟩ (dirTemplateEffects p comp)).fs.dirs ∧
    p.catalog_dir ∈ (stepRun mkdirsIfAbsent ⟨fs, [], none⟩ (dirTemplateEffects p comp)).fs.dirs ∧
    p.pid_dir ∈ (stepRun mkdirsIfAbsent ⟨fs, [], none⟩ (dirTemplateEffects p comp)).fs.dirs ∧
    p.log_dir ∈ (stepRun mkdirsIfAbsent ⟨fs, [], none⟩ (dirTemplateEffects p comp)).fs.dirs := by
  rw [stepRun_of_none mkdirsIfAbsent _ rfl]
  dsimp only
  refine ⟨?_, ?_, ?_, ?_⟩
  · exact runEffects_ensureDir_mem _ fs
      (show Effect.ensureDir p.conf_dir p.presto_user p.user_group true ∈
        dirTemplateEffects p comp from List.mem_cons_self _ _)
      (dirTemplate_noCopy p comp)
  · exact runEffects_ensureDir_mem _ fs
      (show Effect.ensureDir p.catalog_dir p.presto_user p.user_group true ∈
        dirTemplateEffects p comp from
        List.mem_cons_of_mem _ (List.mem_cons_self _ _))
      (dirTemplate_noCopy p comp)
  · exact runEffects_ensureDir_mem _ fs
      (show Effect.ensureDir p.pid_dir p.presto_user p.user_group true ∈
        dirTemplateEffects p comp from
        List.mem_cons_of_mem _ (List.mem_cons_of_mem _ (List.mem_cons_self _ _)))
      (dirTemplate_noCopy p comp)
  · exact runEffects_ensureDir_mem _ fs
      (show Effect.ensureDir p.log_dir p.presto_user p.user_group true ∈
        dirTemplateEffects p comp from
        List.mem_cons_of_mem _ (List.mem_cons_of_mem _
          (List.mem_cons_of_mem _ (List.mem_cons_self _ _))))
      (dirTemplate_noCopy p comp)

/-- Every ownership-setting effect of the first step targets one of the six
fixed paths. -/
theorem dirTemplate_chowns_mem (p : Params) (comp : Option String) :
    ∀ e ∈ dirTemplateEffects p comp, ∀ x, e.chownsTo = some x → x ∈ chownTargetList p := by
  intro e he x hx
  simp only [dirTemplateEffects, directoryEffect, template_config,
    List.mem_cons, List.not_mem_nil, or_false] at he
  rcases he with rfl | rfl | rfl | rfl | rfl | rfl <;>
    simp only [Effect.chownsTo, Option.some.injEq] at hx <;>
    subst hx <;>
    simp [chownTargetList]

/-- The unconditional first step leaves the ownership record of every path
outside the six fixed targets unchanged. -/
theorem step1_owns (comp : Option String) (p : Params) (fs : FS) {q : String}
    (hq : q ∉ chownTargetList p) :
    ownsAt (stepRun mkdirsIfAbsent ⟨fs, [], none⟩ (dirTemplateEffects p comp)).fs q =
      ownsAt fs q := by
  rw [stepRun_of_none mkdirsIfAbsent _ rfl]
  dsimp only
  apply runEffectsWith_owns_frame
  intro e he hc
  apply hq
  have := dirTemplate_chowns_mem p comp e he q
  exact this hc

/-- Content at the catalog file of one entry after the catalog step: its
previous content followed by that entry's block. -/
theorem catalog_run (p : Params) :
    ∀ (m : List (String × List String)) (fs : FS) {key : String} {lines : List String},
    (m.map Prod.fst).Nodup → (key, lines) ∈ m →
    lookupFile (runEffectsWith mkdirsIfAbsent fs (catalogEffects p m)).fs (catalogPath p key)
      = some ⟨contentAt fs (catalogPath p key) ++ appendBlock lines,
              metaAt fs (catalogPath p key)⟩ := by
  intro m
  induction m with
  | nil => intro fs key lines _ hmem; exact absurd hmem (List.not_mem_nil _)
  | cons kv rest ih =>
      intro fs key lines hnd hmem
      obtain ⟨k, v⟩ := kv
      have hndc : (k :: rest.map Prod.fst).Nodup := by
        rw [show ((k, v) :: rest).map Prod.fst = k :: rest.map Prod.fst from rfl] at hnd
        exact hnd
      have hnd' := List.nodup_cons.mp hndc
      have hcons : catalogEffects p ((k, v) :: rest) =
          Effect.appendLines (catalogPath p k) v :: catalogEffects p rest := rfl
      rw [hcons]
      have hok : runEffectWith mkdirsIfAbsent fs (Effect.appendLines (catalogPath p k) v) =
          .ok ⟨(catalogPath p k,
                ⟨contentAt fs (catalogPath p k) ++ appendBlock v, metaAt fs (catalogPath p k)⟩)
                :: fs.files, fs.dirs, fs.owns⟩ := rfl
      rw [runEffectsWith_cons_ok mkdirsIfAbsent _ hok]
      dsimp only
      rcases List.mem_cons.mp hmem with heq | hmem'
      · have hk : key = k := congrArg Prod.fst heq
        have hv : lines = v := congrArg Prod.snd heq
        subst hk; subst hv
        have hframe : ∀ e ∈ catalogEffects p rest,
            e.writesTo ≠ some (catalogPath p key) := by
          intro e he hw
          obtain ⟨kv', hkv', rfl⟩ := catalogEffects_mem he
          have : catalogPath p kv'.1 = catalogPath p key :=
            Option.some.injEq _ _ ▸ hw
          have hkk : kv'.1 = key := catalogPath_inj this
          exact hnd'.1 (hkk ▸ List.mem_map_of_mem Prod.fst hkv')
        rw [runEffectsWith_files_frame mkdirsIfAbsent _ _ hframe]
        show lookupFileL _ (catalogPath p key) = _
        rw [lookupFileL_cons_self]
      · have hk : k ≠ key := by
          intro hkk
          exact hnd'.1 (hkk ▸ List.mem_map_of_mem Prod.fst hmem')
        have hlk : lookupFile
            ⟨(catalogPath p k,
              ⟨contentAt fs (catalogPath p k) ++ appendBlock v, metaAt fs (catalogPath p k)⟩)
              :: fs.files, fs.dirs, fs.owns⟩ (catalogPath p key) = lookupFile fs (catalogPath p key) := by
          show lookupFileL _ (catalogPath p key) = lookupFileL fs.files (catalogPath p key)
          exact lookupFileL_cons_ne _ _ _ (fun hpp => hk (catalogPath_inj hpp))
        rw [ih _ hnd'.2 hmem', contentAt_congr hlk, metaAt_congr hlk]

/-- The decoded list of a successfully decoded field. -/
theorem listOf_value {α : Type} (a : List α) : (LitField.value a).listOf = a := rfl

/-- An absent field decodes to nothing. -/
theorem listOf_absent {α : Type} : (LitField.absent : LitField (List α)).listOf = [] := rfl

/-- A malformed field decodes to nothing. -/
theorem listOf_malformed {α : Type} : (LitField.malformed : LitField (List α)).listOf = [] := rfl

/-- The plugin step never writes the given path when every copy destination
avoids it. -/
theorem plugin_step_avoids {p : Params} {q : String} (hcopy : copyAvoids p q) :
    ∀ m, p.addon_plugins = LitField.value m →
      ∀ e ∈ pluginEffects p m, e.writesTo ≠ some q := by
  intro m hm e he hw
  rcases pluginEffects_writes he with h | ⟨kv, hkv, jar, hjar, h⟩
  · rw [h] at hw; exact Option.noConfusion hw
  · rw [h] at hw
    have hd : dstOf p kv.1 jar = q := Option.some.injEq _ _ ▸ hw
    have hkv' : kv ∈ p.addon_plugins.listOf := by rw [hm]; exact hkv
    exact hcopy kv hkv' jar hjar hd

/-- The catalog step never writes the JVM config file. -/
theorem catalog_step_avoids_jvm (p : Params) :
    ∀ m, p.catalog_properties = LitField.value m →
      ∀ e ∈ catalogEffects p m, e.writesTo ≠ some (jvmConfigPath p) := by
  intro m _ e he hw
  obtain ⟨kv, _, rfl⟩ := catalogEffects_mem he
  have : catalogPath p kv.1 = jvmConfigPath p := Option.some.injEq _ _ ▸ hw
  exact catalogPath_ne_jvm p kv.1 this

/-- Final content of the JVM config file: its initial content followed by
the block of the decoded JVM arguments (the empty block when the field is
absent or malformed), provided no plugin copy lands on it.  When the field
decodes, the file exists afterwards. -/
theorem jvm_final (comp : Option String) (p : Params) (fs : FS)
    (hcopy : copyAvoids p (jvmConfigPath p)) :
    contentAt (set_configuration comp p fs).fs (jvmConfigPath p)
      = contentAt fs (jvmConfigPath p) ++ appendBlock p.jvm_args.listOf ∧
    (∀ args, p.jvm_args = LitField.value args →
      (lookupFile (set_configuration comp p fs).fs (jvmConfigPath p)).isSome = true) := by
  rw [set_configuration_unfold]
  set r1 := stepRun mkdirsIfAbsent ⟨fs, [], none⟩ (dirTemplateEffects p comp) with hr1
  set r2 := stepLit mkdirsIfAbsent r1 p.jvm_args
    (fun args => [store_configuration args (jvmConfigPath p)]) with hr2
  set r3 := stepLit mkdirsIfAbsent r2 p.catalog_properties
    (fun m => catalogEffects p m) with hr3
  set r4 := stepLit mkdirsIfAbsent r3 p.addon_plugins
    (fun m => pluginEffects p m) with hr4
  have h1err : r1.err = none := by rw [hr1]; exact step1_err comp p fs
  have h1files : lookupFile r1.fs (jvmConfigPath p) = lookupFile fs (jvmConfigPath p) := by
    rw [hr1]
    exact step1_files comp p fs (configProps_ne_jvm p) (nodeProps_ne_jvm p)
  have h43 : lookupFile r4.fs (jvmConfigPath p) = lookupFile r3.fs (jvmConfigPath p) := by
    rw [hr4]
    exact stepLit_files_frame mkdirsIfAbsent r3 _ _ (plugin_step_avoids hcopy)
  have h32 : lookupFile r3.fs (jvmConfigPath p) = lookupFile r2.fs (jvmConfigPath p) := by
    rw [hr3]
    exact stepLit_files_frame mkdirsIfAbsent r2 _ _ (catalog_step_avoids_jvm p)
  cases hjv : p.jvm_args with
  | absent =>
      rw [hjv] at hr2
      have hr2' : r2 = r1 := by rw [hr2]; exact stepLit_absent mkdirsIfAbsent r1 _
      constructor
      · rw [contentAt_congr h43, contentAt_congr h32, hr2', contentAt_congr h1files,
          listOf_absent, appendBlock_nil, str_append_emptyStr]
      · intro args harg
        exact absurd harg (by simp)
  | malformed =>
      rw [hjv] at hr2
      have hr2' : r2 = ⟨r1.fs, r1.trace, some PyErr.malformedLiteral⟩ := by
        rw [hr2]; exact stepLit_malformed mkdirsIfAbsent _ h1err
      constructor
      · have h2files : lookupFile r2.fs (jvmConfigPath p) = lookupFile fs (jvmConfigPath p) := by
          rw [hr2']; exact h1files
        rw [contentAt_congr h43, contentAt_congr h32, contentAt_congr h2files,
          listOf_malformed, appendBlock_nil, str_append_emptyStr]
      · intro args harg
        exact absurd harg (by simp)
  | value args =>
      rw [hjv] at hr2
      have hr2' : r2 = stepRun mkdirsIfAbsent r1 [store_configuration args (jvmConfigPath p)] := by
        rw [hr2]; exact stepLit_value mkdirsIfAbsent args _ h1err
      have hrun := run_append_one mkdirsIfAbsent r1.fs (jvmConfigPath p) args
      have h2look : lookupFile r2.fs (jvmConfigPath p) =
          some ⟨contentAt r1.fs (jvmConfigPath p) ++ appendBlock args,
                metaAt r1.fs (jvmConfigPath p)⟩ := by
        rw [hr2', stepRun_of_none mkdirsIfAbsent _ h1err]
        dsimp only
        rw [show (store_configuration args (jvmConfigPath p)) =
              Effect.appendLines (jvmConfigPath p) args from rfl] at *
        rw [hrun]
        show lookupFileL _ (jvmConfigPath p) = _
        rw [lookupFileL_cons_self]
      constructor
      · rw [contentAt_congr h43, contentAt_congr h32, contentAt_of_lookup h2look,
          contentAt_congr h1files, LitField.listOf]
      · intro args' _
        rw [h43, h32, h2look]
        rfl

/-- After the JVM step no error has been raised, unless the JVM field was
malformed. -/
theorem step2_err (comp : Option String) (p : Params) (fs : FS)
    (hjvm : p.jvm_args ≠ LitField.malformed) :
    (stepLit mkdirsIfAbsent
      (stepRun mkdirsIfAbsent ⟨fs, [], none⟩ (dirTemplateEffects p comp))
      p.jvm_args (fun args => [store_configuration args (jvmConfigPath p)])).err = none := by
  have h1err := step1_err comp p fs
  cases hjv : p.jvm_args with
  | absent => rw [stepLit_absent]; exact h1err
  | malformed => exact absurd hjv hjvm
  | value args =>
      rw [stepLit_value mkdirsIfAbsent args _ h1err, stepRun_of_none mkdirsIfAbsent _ h1err]
      dsimp only
      rw [show (store_configuration args (jvmConfigPath p)) =
            Effect.appendLines (jvmConfigPath p) args from rfl]
      rw [run_append_one]

/-- After the catalog step no error has been raised, unless one of the first
two optional fields was malformed. -/
theorem step3_err (comp : Option String) (p : Params) (fs : FS)
    (hjvm : p.jvm_args ≠ LitField.malformed)
    (hcat : p.catalog_properties ≠ LitField.malformed) :
    (stepLit mkdirsIfAbsent
      (stepLit mkdirsIfAbsent
        (stepRun mkdirsIfAbsent ⟨fs, [], none⟩ (dirTemplateEffects p comp))
        p.jvm_args (fun args => [store_configuration args (jvmConfigPath p)]))
      p.catalog_properties (fun m => catalogEffects p m)).err = none := by
  have h2err := step2_err comp p fs hjvm
  cases hct : p.catalog_properties with
  | absent => rw [stepLit_absent]; exact h2err
  | malformed => exact absurd hct hcat
  | value m =>
      rw [stepLit_value mkdirsIfAbsent m _ h2err, stepRun_of_none mkdirsIfAbsent _ h2err]
      dsimp only
      exact (runEffects_noCopy _ (catalogEffects_noCopy p m) _).1

/-- Final content of the catalog file of one decoded entry: its initial
content followed by that entry's block, provided the file collides with
neither rendered template nor any plugin-copy destination. -/
theorem catalog_final (comp : Option String) (p : Params) (fs : FS) {key : String}
    {lines : List String}
    (hjvm : p.jvm_args ≠ LitField.malformed)
    (hmem : (key, lines) ∈ p.catalog_properties.listOf)
    (hnd : (p.catalog_properties.listOf.map Prod.fst).Nodup)
    (hal1 : catalogPath p key ≠ configPropsPath p)
    (hal2 : catalogPath p key ≠ nodePropsPath p)
    (hcopy : copyAvoids p (catalogPath p key)) :
    lookupFile (set_configuration comp p fs).fs (catalogPath p key)
      = some ⟨contentAt fs (catalogPath p key) ++ appendBlock lines,
              metaAt fs (catalogPath p key)⟩ := by
  rw [set_configuration_unfold]
  set r1 := stepRun mkdirsIfAbsent ⟨fs, [], none⟩ (dirTemplateEffects p comp) with hr1
  set r2 := stepLit mkdirsIfAbsent r1 p.jvm_args
    (fun args => [store_configuration args (jvmConfigPath p)]) with hr2
  set r3 := stepLit mkdirsIfAbsent r2 p.catalog_properties
    (fun m => catalogEffects p m) with hr3
  set r4 := stepLit mkdirsIfAbsent r3 p.addon_plugins
    (fun m => pluginEffects p m) with hr4
  have h1err : r1.err = none := by rw [hr1]; exact step1_err comp p fs
  have h2err : r2.err = none := by rw [hr2, hr1]; exact step2_err comp p fs hjvm
  have h1files : lookupFile r1.fs (catalogPath p key) = lookupFile fs (catalogPath p key) := by
    rw [hr1]
    exact step1_files comp p fs (fun h => hal1 h.symm) (fun h => hal2 h.symm)
  have h21 : lookupFile r2.fs (catalogPath p key) = lookupFile r1.fs (catalogPath p key) := by
    rw [hr2]
    apply stepLit_files_frame
    intro args _ e he hw
    rw [List.mem_singleton] at he
    subst he
    have : jvmConfigPath p = catalogPath p key := Option.some.injEq _ _ ▸ hw
    exact catalogPath_ne_jvm p key this.symm
  have h43 : lookupFile r4.fs (catalogPath p key) = lookupFile r3.fs (catalogPath p key) := by
    rw [hr4]
    exact stepLit_files_frame mkdirsIfAbsent r3 _ _ (plugin_step_avoids hcopy)
  cases hct : p.catalog_properties with
  | absent => rw [hct, listOf_absent] at hmem; exact absurd hmem (List.not_mem_nil _)
  | malformed => rw [hct, listOf_malformed] at hmem; exact absurd hmem (List.not_mem_nil _)
  | value m =>
      rw [hct, listOf_value] at hmem hnd
      rw [hct] at hr3
      have hr3' : r3 = stepRun mkdirsIfAbsent r2 (catalogEffects p m) := by
        rw [hr3]; exact stepLit_value mkdirsIfAbsent m _ h2err
      have h3look : lookupFile r3.fs (catalogPath p key)
          = some ⟨contentAt r2.fs (catalogPath p key) ++ appendBlock lines,
                  metaAt r2.fs (catalogPath p key)⟩ := by
        rw [hr3', stepRun_of_none mkdirsIfAbsent _ h2err]
        dsimp only
        exact catalog_run p m r2.fs hnd hmem
      rw [h43, h3look, contentAt_congr (h21.trans h1files), metaAt_congr (h21.trans h1files)]

/-- Trace structure of every invocation: the six unconditional effects come
first, and everything after them is a JVM append (only when the JVM field
decodes), a catalog append for a decoded entry, or a plugin-step effect. -/
theorem trace_structure (comp : Option String) (p : Params) (fs : FS) :
    ∃ t, (set_configuration comp p fs).trace = dirTemplateEffects p comp ++ t ∧
      ∀ e ∈ t,
        (∃ args, p.jvm_args = LitField.value args ∧
          e = store_configuration args (jvmConfigPath p)) ∨
        (∃ kv, kv ∈ p.catalog_properties.listOf ∧
          e = store_configuration kv.2 (catalogPath p kv.1)) ∨
        e ∈ pluginEffects p p.addon_plugins.listOf := by
  rw [set_configuration_unfold]
  set r1 := stepRun mkdirsIfAbsent ⟨fs, [], none⟩ (dirTemplateEffects p comp) with hr1
  set r2 := stepLit mkdirsIfAbsent r1 p.jvm_args
    (fun args => [store_configuration args (jvmConfigPath p)]) with hr2
  set r3 := stepLit mkdirsIfAbsent r2 p.catalog_properties
    (fun m => catalogEffects p m) with hr3
  have h1trace : r1.trace = dirTemplateEffects p comp := by
    rw [hr1]; exact step1_trace comp p fs
  obtain ⟨t2, ht2, ht2c⟩ := stepLit_trace mkdirsIfAbsent r1 p.jvm_args
    (fun args => [store_configuration args (jvmConfigPath p)])
  obtain ⟨t3, ht3, ht3c⟩ := stepLit_trace mkdirsIfAbsent r2 p.catalog_properties
    (fun m => catalogEffects p m)
  obtain ⟨t4, ht4, ht4c⟩ := stepLit_trace mkdirsIfAbsent r3 p.addon_plugins
    (fun m => pluginEffects p m)
  refine ⟨t2 ++ t3 ++ t4, ?_, ?_⟩
  · rw [ht4, ht3, ht2, h1trace]
    simp [List.append_assoc]
  · intro e he
    rcases List.mem_append.mp he with he' | he4
    · rcases List.mem_append.mp he' with he2 | he3
      · obtain ⟨args, hjv, hin⟩ := ht2c e he2
        rw [List.mem_singleton] at hin
        exact Or.inl ⟨args, hjv, hin⟩
      · obtain ⟨m, hcat, hin⟩ := ht3c e he3
        obtain ⟨kv, hkv, rfl⟩ := catalogEffects_mem hin
        refine Or.inr (Or.inl ⟨kv, ?_, rfl⟩)
        rw [hcat, listOf_value]
        exact hkv
    · obtain ⟨m, had, hin⟩ := ht4c e he4
      refine Or.inr (Or.inr ?_)
      rw [had, listOf_value]
      exact hin

/-- A malformed JVM-arguments field: the invocation raises after performing
exactly the six unconditional effects. -/
theorem malformed_first (comp : Option String) (p : Params) (fs : FS)
    (h : p.jvm_args = LitField.malformed) :
    (set_configuration comp p fs).err = some PyErr.malformedLiteral ∧
    (set_configuration comp p fs).trace = dirTemplateEffects p comp := by
  rw [set_configuration_unfold]
  set r1 := stepRun mkdirsIfAbsent ⟨fs, [], none⟩ (dirTemplateEffects p comp) with hr1
  have h1err : r1.err = none := by rw [hr1]; exact step1_err comp p fs
  have h1trace : r1.trace = dirTemplateEffects p comp := by
    rw [hr1]; exact step1_trace comp p fs
  rw [h, stepLit_malformed mkdirsIfAbsent _ h1err,
    stepLit_of_err mkdirsIfAbsent _ _ rfl, stepLit_of_err mkdirsIfAbsent _ _ rfl]
  exact ⟨rfl, h1trace⟩

/-- A malformed catalog-properties field (with a well-formed JVM field):
the invocation raises the literal error. -/
theorem err_second (comp : Option String) (p : Params) (fs : FS)
    (hjvm : p.jvm_args ≠ LitField.malformed)
    (hcat : p.catalog_properties = LitField.malformed) :
    (set_configuration comp p fs).err = some PyErr.malformedLiteral := by
  rw [set_configuration_unfold]
  have h2err := step2_err comp p fs hjvm
  rw [hcat, stepLit_malformed mkdirsIfAbsent _ h2err, stepLit_of_err mkdirsIfAbsent _ _ rfl]

/-- A malformed addon-plugins field (with the earlier optional fields
well-formed): the invocation raises the literal error. -/
theorem err_third (comp : Option String) (p : Params) (fs : FS)
    (hjvm : p.jvm_args ≠ LitField.malformed)
    (hcat : p.catalog_properties ≠ LitField.malformed)
    (hadd : p.addon_plugins = LitField.malformed) :
    (set_configuration comp p fs).err = some PyErr.malformedLiteral := by
  rw [set_configuration_unfold]
  have h3err := step3_err comp p fs hjvm hcat
  rw [hadd, stepLit_malformed mkdirsIfAbsent _ h3err]

/-- With well-formed JVM and catalog fields and no addon plugins, the
invocation succeeds. -/
theorem err_none_of_absent (comp : Option String) (p : Params) (fs : FS)
    (hjvm : p.jvm_args ≠ LitField.malformed)
    (hcat : p.catalog_properties ≠ LitField.malformed)
    (hadd : p.addon_plugins = LitField.absent) :
    (set_configuration comp p fs).err = none := by
  rw [set_configuration_unfold, hadd, stepLit_absent]
  exact step3_err comp p fs hjvm hcat

/-- Running the copies of one plugin: no error when every source exists; a
path hit by no copy is untouched; and a copy destination ends up holding the
source file, provided every copy landing there copies the same source. -/
theorem copies_run (p : Params) (d : String) :
    ∀ (js : List String) (fs : FS),
    (∀ j ∈ js, (lookupFile fs (srcOf p j)).isSome = true) →
    (∀ j ∈ js, ∀ j' ∈ js, joinPath d (baseName (srcOf p j')) ≠ srcOf p j) →
    (runEffectsWith mkdirsIfAbsent fs
        (js.map (fun jar => Effect.copy2 (srcOf p jar) d))).err = none ∧
    (∀ q, (∀ j ∈ js, joinPath d (baseName (srcOf p j)) ≠ q) →
      lookupFile (runEffectsWith mkdirsIfAbsent fs
        (js.map (fun jar => Effect.copy2 (srcOf p jar) d))).fs q = lookupFile fs q) ∧
    (∀ jar ∈ js,
      (∀ j' ∈ js, joinPath d (baseName (srcOf p j')) = joinPath d (baseName (srcOf p jar)) →
        srcOf p j' = srcOf p jar) →
      lookupFile (runEffectsWith mkdirsIfAbsent fs
        (js.map (fun jar => Effect.copy2 (srcOf p jar) d))).fs
          (joinPath d (baseName (srcOf p jar)))
        = lookupFile fs (srcOf p jar)) := by
  intro js
  induction js with
  | nil =>
      intro fs _ _
      exact ⟨rfl, fun q _ => rfl, fun jar hj _ => absurd hj (List.not_mem_nil _)⟩
  | cons j js ih =>
      intro fs hex hnc
      obtain ⟨f, hlf⟩ := Option.isSome_iff_exists.mp (hex j (List.mem_cons_self j js))
      have hok : runEffectWith mkdirsIfAbsent fs (Effect.copy2 (srcOf p j) d) =
          .ok ⟨(joinPath d (baseName (srcOf p j)), f) :: fs.files, fs.dirs, fs.owns⟩ := by
        simp only [runEffectWith, hlf]
      rw [show (j :: js).map (fun jar => Effect.copy2 (srcOf p jar) d) =
            Effect.copy2 (srcOf p j) d :: js.map (fun jar => Effect.copy2 (srcOf p jar) d)
          from rfl,
        runEffectsWith_cons_ok mkdirsIfAbsent _ hok]
      dsimp only
      set fs1 : FS :=
        ⟨(joinPath d (baseName (srcOf p j)), f) :: fs.files, fs.dirs, fs.owns⟩ with hfs1
      have hsrc1 : ∀ a ∈ js, lookupFile fs1 (srcOf p a) = lookupFile fs (srcOf p a) := by
        intro a ha
        exact lookupFileL_cons_ne _ _ _
          (hnc a (List.mem_cons_of_mem j ha) j (List.mem_cons_self j js))
      have hex' : ∀ a ∈ js, (lookupFile fs1 (srcOf p a)).isSome = true := by
        intro a ha
        rw [hsrc1 a ha]
        exact hex a (List.mem_cons_of_mem j ha)
      have hnc' : ∀ a ∈ js, ∀ b ∈ js, joinPath d (baseName (srcOf p b)) ≠ srcOf p a := by
        intro a ha b hb
        exact hnc a (List.mem_cons_of_mem j ha) b (List.mem_cons_of_mem j hb)
      obtain ⟨ihe, ihf, ihl⟩ := ih fs1 hex' hnc'
      refine ⟨ihe, ?_, ?_⟩
      · intro q hq
        rw [ihf q (fun a ha => hq a (List.mem_cons_of_mem j ha))]
        exact lookupFileL_cons_ne _ _ _ (hq j (List.mem_cons_self j js))
      · intro jar hjar huniq
        rcases List.mem_cons.mp hjar with heq | hmem'
        · subst heq
          by_cases hD : ∃ j' ∈ js,
              joinPath d (baseName (srcOf p j')) = joinPath d (baseName (srcOf p jar))
          · obtain ⟨j', hj', hdd⟩ := hD
            have huniq' : ∀ b ∈ js,
                joinPath d (baseName (srcOf p b)) = joinPath d (baseName (srcOf p j')) →
                srcOf p b = srcOf p j' := by
              intro b hb hbb
              rw [huniq b (List.mem_cons_of_mem jar hb) (hbb.trans hdd),
                huniq j' (List.mem_cons_of_mem jar hj') hdd]
            have hstep := ihl j' hj' huniq'
            rw [hdd] at hstep
            rw [hstep, hsrc1 j' hj', huniq j' (List.mem_cons_of_mem jar hj') hdd]
          · push_neg at hD
            rw [ihf _ (fun a ha => hD a ha)]
            show lookupFileL _ _ = _
            rw [lookupFileL_cons_self]
            exact hlf.symm
        · have huniq' : ∀ b ∈ js,
              joinPath d (baseName (srcOf p b)) = joinPath d (baseName (srcOf p jar)) →
              srcOf p b = srcOf p jar := by
            intro b hb hbb
            exact huniq b (List.mem_cons_of_mem j hb) hbb
          rw [ihl jar hmem' huniq', hsrc1 jar hmem']

/-- Running the whole plugin step: no error when every source exists and no
copy destination clobbers a source; a path hit by no copy is untouched; and
each copy destination ends up holding its source file (content and
metadata), provided every copy landing there copies the same source. -/
theorem plugins_run (p : Params) :
    ∀ (m : List (String × List String)) (fs : FS),
    (∀ kv ∈ m, ∀ j ∈ kv.2, (lookupFile fs (srcOf p j)).isSome = true) →
    (∀ kv ∈ m, ∀ j ∈ kv.2, ∀ kv' ∈ m, ∀ j' ∈ kv'.2, dstOf p kv'.1 j' ≠ srcOf p j) →
    (runEffectsWith mkdirsIfAbsent fs (pluginEffects p m)).err = none ∧
    (∀ q, (∀ kv ∈ m, ∀ j ∈ kv.2, dstOf p kv.1 j ≠ q) →
      lookupFile (runEffectsWith mkdirsIfAbsent fs (pluginEffects p m)).fs q
        = lookupFile fs q) ∧
    (∀ key jars jar, (key, jars) ∈ m → jar ∈ jars →
      (∀ kv' ∈ m, ∀ j' ∈ kv'.2, dstOf p kv'.1 j' = dstOf p key jar →
        srcOf p j' = srcOf p jar) →
      lookupFile (runEffectsWith mkdirsIfAbsent fs (pluginEffects p m)).fs (dstOf p key jar)
        = lookupFile fs (srcOf p jar)) := by
  intro m
  induction m with
  | nil =>
      intro fs _ _
      exact ⟨rfl, fun q _ => rfl, fun key jars jar hm _ _ => absurd hm (List.not_mem_nil _)⟩
  | cons kv rest ih =>
      obtain ⟨k, js⟩ := kv
      intro fs hex hnc
      obtain ⟨fs0, hok0⟩ := runEffectWith_mkdirs_ok fs (Effect.ensurePluginDir (pluginDirOf p k)) rfl
      have h0frame : ∀ q, lookupFile fs0 q = lookupFile fs q := by
        intro q
        exact runEffectWith_files_frame mkdirsIfAbsent fs _ hok0 (by simp [Effect.writesTo])
      have hexC : ∀ j ∈ js, (lookupFile fs0 (srcOf p j)).isSome = true := by
        intro j hj
        rw [h0frame]
        exact hex (k, js) (List.mem_cons_self _ _) j hj
      have hncC : ∀ j ∈ js, ∀ j' ∈ js,
          joinPath (pluginDirOf p k) (baseName (srcOf p j')) ≠ srcOf p j := by
        intro j hj j' hj'
        exact hnc (k, js) (List.mem_cons_self _ _) j hj (k, js) (List.mem_cons_self _ _) j' hj'
      obtain ⟨hCe, hCf, hCl⟩ := copies_run p (pluginDirOf p k) js fs0 hexC hncC
      have hblock : runEffectsWith mkdirsIfAbsent fs (pluginBlock p k js) =
          ⟨(runEffectsWith mkdirsIfAbsent fs0
              (js.map (fun jar => Effect.copy2 (srcOf p jar) (pluginDirOf p k)))).fs,
           Effect.ensurePluginDir (pluginDirOf p k) ::
             (runEffectsWith mkdirsIfAbsent fs0
               (js.map (fun jar => Effect.copy2 (srcOf p jar) (pluginDirOf p k)))).trace,
           (runEffectsWith mkdirsIfAbsent fs0
             (js.map (fun jar => Effect.copy2 (srcOf p jar) (pluginDirOf p k)))).err⟩ := by
        rw [show pluginBlock p k js = Effect.ensurePluginDir (pluginDirOf p k) ::
              js.map (fun jar => Effect.copy2 (srcOf p jar) (pluginDirOf p k)) from rfl]
        exact runEffectsWith_cons_ok mkdirsIfAbsent _ hok0
      have hblockerr : (runEffectsWith mkdirsIfAbsent fs (pluginBlock p k js)).err = none := by
        rw [hblock]
        exact hCe
      have hBframe : ∀ q, (∀ j ∈ js, dstOf p k j ≠ q) →
          lookupFile (runEffectsWith mkdirsIfAbsent fs (pluginBlock p k js)).fs q
            = lookupFile fs q := by
        intro q hq
        rw [hblock]
        dsimp only
        rw [hCf q (fun j hj => hq j hj)]
        exact h0frame q
      have hsplit : runEffectsWith mkdirsIfAbsent fs (pluginEffects p ((k, js) :: rest)) =
          ⟨(runEffectsWith mkdirsIfAbsent
              (runEffectsWith mkdirsIfAbsent fs (pluginBlock p k js)).fs
              (pluginEffects p rest)).fs,
           pluginBlock p k js ++
             (runEffectsWith mkdirsIfAbsent
               (runEffectsWith mkdirsIfAbsent fs (pluginBlock p k js)).fs
               (pluginEffects p rest)).trace,
           (runEffectsWith mkdirsIfAbsent
             (runEffectsWith mkdirsIfAbsent fs (pluginBlock p k js)).fs
             (pluginEffects p rest)).err⟩ := by
        rw [show pluginEffects p ((k, js) :: rest) =
              pluginBlock p k js ++ pluginEffects p rest from rfl]
        exact runEffectsWith_append mkdirsIfAbsent _ _ fs hblockerr
      set fsB := (runEffectsWith mkdirsIfAbsent fs (pluginBlock p k js)).fs with hfsB
      have hexR : ∀ kv' ∈ rest, ∀ j ∈ kv'.2, (lookupFile fsB (srcOf p j)).isSome = true := by
        intro kv' hkv' j hj
        rw [hBframe (srcOf p j) (fun j'' hj'' =>
          hnc kv' (List.mem_cons_of_mem _ hkv') j hj (k, js) (List.mem_cons_self _ _) j'' hj'')]
        exact hex kv' (List.mem_cons_of_mem _ hkv') j hj
      have hncR : ∀ kv' ∈ rest, ∀ j ∈ kv'.2, ∀ kv'' ∈ rest, ∀ j' ∈ kv''.2,
          dstOf p kv''.1 j' ≠ srcOf p j := by
        intro kv' hkv' j hj kv'' hkv'' j' hj'
        exact hnc kv' (List.mem_cons_of_mem _ hkv') j hj
          kv'' (List.mem_cons_of_mem _ hkv'') j' hj'
      obtain ⟨iHe, iHf, iHl⟩ := ih fsB hexR hncR
      refine ⟨?_, ?_, ?_⟩
      · rw [hsplit]
        exact iHe
      · intro q hq
        rw [hsplit]
        dsimp only
        rw [iHf q (fun kv' hkv' j hj => hq kv' (List.mem_cons_of_mem _ hkv') j hj)]
        exact hBframe q (fun j hj => hq (k, js) (List.mem_cons_self _ _) j hj)
      · intro key jars jar hmem hjar huniq
        rw [hsplit]
        dsimp only
        rcases List.mem_cons.mp hmem with heq | hmemR
        · have hk : key = k := congrArg Prod.fst heq
          have hjs : jars = js := congrArg Prod.snd heq
          subst hk
          subst hjs
          have hBlast : lookupFile fsB (dstOf p key jar) = lookupFile fs (srcOf p jar) := by
            rw [hfsB, hblock]
            dsimp only
            have huniqC : ∀ j' ∈ jars,
                joinPath (pluginDirOf p key) (baseName (srcOf p j')) =
                  joinPath (pluginDirOf p key) (baseName (srcOf p jar)) →
                srcOf p j' = srcOf p jar := by
              intro j' hj' hdd
              exact huniq (key, jars) (List.mem_cons_self _ _) j' hj' hdd
            rw [show dstOf p key jar =
                  joinPath (pluginDirOf p key) (baseName (srcOf p jar)) from rfl,
              hCl jar hjar huniqC]
            exact h0frame _
          by_cases hD : ∃ kv' ∈ rest, ∃ j' ∈ kv'.2, dstOf p kv'.1 j' = dstOf p key jar
          · obtain ⟨kv', hkv', j', hj', hdd⟩ := hD
            have hsrc' : srcOf p j' = srcOf p jar :=
              huniq kv' (List.mem_cons_of_mem _ hkv') j' hj' hdd
            have huniqR : ∀ kv'' ∈ rest, ∀ j'' ∈ kv''.2,
                dstOf p kv''.1 j'' = dstOf p kv'.1 j' → srcOf p j'' = srcOf p j' := by
              intro kv'' hkv'' j'' hj'' hbb
              rw [huniq kv'' (List.mem_cons_of_mem _ hkv'') j'' hj'' (hbb.trans hdd), hsrc']
            have hstep := iHl kv'.1 kv'.2 j' hkv' hj' huniqR
            rw [hdd] at hstep
            rw [hstep]
            rw [hBframe (srcOf p j') (fun j'' hj'' =>
              hnc kv' (List.mem_cons_of_mem _ hkv') j' hj'
                (key, jars) (List.mem_cons_self _ _) j'' hj'')]
            rw [hsrc']
          · push_neg at hD
            rw [iHf (dstOf p key jar) (fun kv' hkv' j' hj' => hD kv' hkv' j' hj')]
            exact hBlast
        · have huniqR : ∀ kv' ∈ rest, ∀ j' ∈ kv'.2,
              dstOf p kv'.1 j' = dstOf p key jar → srcOf p j' = srcOf p jar := by
            intro kv' hkv' j' hj' hdd
            exact huniq kv' (List.mem_cons_of_mem _ hkv') j' hj' hdd
          rw [iHl key jars jar hmemR hjar huniqR]
          exact hBframe (srcOf p jar) (fun j'' hj'' =>
            hnc (key, jars) (List.mem_cons_of_mem _ hmemR) jar hjar
              (k, js) (List.mem_cons_self _ _) j'' hj'')

/-- A malformed JVM field leaves the filesystem exactly as the six
unconditional effects left it. -/
theorem malformed_first_fs (comp : Option String) (p : Params) (fs : FS)
    (h : p.jvm_args = LitField.malformed) :
    (set_configuration comp p fs).fs =
      (stepRun mkdirsIfAbsent ⟨fs, [], none⟩ (dirTemplateEffects p comp)).fs := by
  rw [set_configuration_unfold, h, stepLit_malformed mkdirsIfAbsent _ (step1_err comp p fs),
    stepLit_of_err mkdirsIfAbsent _ _ rfl, stepLit_of_err mkdirsIfAbsent _ _ rfl]

/-- The boolean prefix test agrees with the existence of a completing
suffix. -/
theorem strIsPrefixOf_iff (a b : String) :
    strIsPrefixOf a b = true ↔ ∃ s, b = a ++ s := by
  rw [strIsPrefixOf, List.isPrefixOf_iff_prefix]
  constructor
  · rintro ⟨t, ht⟩
    refine ⟨⟨t⟩, ?_⟩
    apply String.ext
    rw [String.data_append]
    exact ht.symm
  · rintro ⟨s, rfl⟩
    exact ⟨s.data, (String.data_append a s).symm⟩

/-- Append paths distribute over trace concatenation. -/
theorem appendPathsOf_append (es1 es2 : List Effect) :
    appendPathsOf (es1 ++ es2) = appendPathsOf es1 ++ appendPathsOf es2 :=
  List.filterMap_append _ _ _

/-- Copy destinations distribute over trace concatenation. -/
theorem copyDstsOf_append (es1 es2 : List Effect) :
    copyDstsOf (es1 ++ es2) = copyDstsOf es1 ++ copyDstsOf es2 :=
  List.filterMap_append _ _ _

/-- Plugin directories distribute over trace concatenation. -/
theorem pluginDirsOf_append (es1 es2 : List Effect) :
    pluginDirsOf (es1 ++ es2) = pluginDirsOf es1 ++ pluginDirsOf es2 :=
  List.filterMap_append _ _ _

/-- The unconditional first step appends to no file. -/
theorem appendPathsOf_dirTemplate (p : Params) (comp : Option String) :
    appendPathsOf (dirTemplateEffects p comp) = [] := rfl

/-- The unconditional first step copies nothing. -/
theorem copyDstsOf_dirTemplate (p : Params) (comp : Option String) :
    copyDstsOf (dirTemplateEffects p comp) = [] := rfl

/-- The unconditional first step ensures no plugin directory. -/
theorem pluginDirsOf_dirTemplate (p : Params) (comp : Option String) :
    pluginDirsOf (dirTemplateEffects p comp) = [] := rfl

/-- A malformed catalog field: everything performed after the six
unconditional effects is a JVM append. -/
theorem malformed_second_trace (comp : Option String) (p : Params) (fs : FS)
    (hjvm : p.jvm_args ≠ LitField.malformed)
    (hcat : p.catalog_properties = LitField.malformed) :
    ∃ t, (set_configuration comp p fs).trace = dirTemplateEffects p comp ++ t ∧
      ∀ e ∈ t, ∃ args, p.jvm_args = LitField.value args ∧
        e = store_configuration args (jvmConfigPath p) := by
  rw [set_configuration_unfold]
  set r1 := stepRun mkdirsIfAbsent ⟨fs, [], none⟩ (dirTemplateEffects p comp) with hr1
  set r2 := stepLit mkdirsIfAbsent r1 p.jvm_args
    (fun args => [store_configuration args (jvmConfigPath p)]) with hr2
  have h2err : r2.err = none := by rw [hr2, hr1]; exact step2_err comp p fs hjvm
  have h1trace : r1.trace = dirTemplateEffects p comp := by
    rw [hr1]; exact step1_trace comp p fs
  obtain ⟨t2, ht2, ht2c⟩ := stepLit_trace mkdirsIfAbsent r1 p.jvm_args
    (fun args => [store_configuration args (jvmConfigPath p)])
  rw [hcat, stepLit_malformed mkdirsIfAbsent _ h2err, stepLit_of_err mkdirsIfAbsent _ _ rfl]
  refine ⟨t2, ?_, ?_⟩
  · show r2.trace = _
    rw [ht2, h1trace]
  · intro e he
    obtain ⟨args, hjv, hin⟩ := ht2c e he
    rw [List.mem_singleton] at hin
    exact ⟨args, hjv, hin⟩

/-- A malformed addon-plugins field: everything performed after the six
unconditional effects is a JVM or catalog append. -/
theorem malformed_third_trace (comp : Option String) (p : Params) (fs : FS)
    (hjvm : p.jvm_args ≠ LitField.malformed)
    (hcat : p.catalog_properties ≠ LitField.malformed)
    (hadd : p.addon_plugins = LitField.malformed) :
    ∃ t, (set_configuration comp p fs).trace = dirTemplateEffects p comp ++ t ∧
      ∀ e ∈ t,
        (∃ args, p.jvm_args = LitField.value args ∧
          e = store_configuration args (jvmConfigPath p)) ∨
        (∃ kv, kv ∈ p.catalog_properties.listOf ∧
          e = store_configuration kv.2 (catalogPath p kv.1)) := by
  rw [set_configuration_unfold]
  set r1 := stepRun mkdirsIfAbsent ⟨fs, [], none⟩ (dirTemplateEffects p comp) with hr1
  set r2 := stepLit mkdirsIfAbsent r1 p.jvm_args
    (fun args => [store_configuration args (jvmConfigPath p)]) with hr2
  set r3 := stepLit mkdirsIfAbsent r2 p.catalog_properties
    (fun m => catalogEffects p m) with hr3
  have h3err : r3.err = none := by rw [hr3, hr2, hr1]; exact step3_err comp p fs hjvm hcat
  have h1trace : r1.trace = dirTemplateEffects p comp := by
    rw [hr1]; exact step1_trace comp p fs
  obtain ⟨t2, ht2, ht2c⟩ := stepLit_trace mkdirsIfAbsent r1 p.jvm_args
    (fun args => [store_configuration args (jvmConfigPath p)])
  obtain ⟨t3, ht3, ht3c⟩ := stepLit_trace mkdirsIfAbsent r2 p.catalog_properties
    (fun m => catalogEffects p m)
  rw [hadd, stepLit_malformed mkdirsIfAbsent _ h3err]
  refine ⟨t2 ++ t3, ?_, ?_⟩
  · show r3.trace = _
    rw [ht3, ht2, h1trace]
    exact List.append_assoc _ _ _
  · intro e he
    rcases List.mem_append.mp he with he2 | he3
    · obtain ⟨args, hjv, hin⟩ := ht2c e he2
      rw [List.mem_singleton] at hin
      exact Or.inl ⟨args, hjv, hin⟩
    · obtain ⟨m, hcm, hin⟩ := ht3c e he3
      obtain ⟨kv, hkv, rfl⟩ := catalogEffects_mem hin
      refine Or.inr ⟨kv, ?_, rfl⟩
      rw [hcm, listOf_value]
      exact hkv

/-- Claim C2: for every parameter set whose jvm_args field is present and
decodes to an ordered sequence of strings, set_configuration appends each
element of that sequence, in order, as its own newline-terminated line to
the file conf_dir/jvm.config, after any pre-existing content (stated under
the assumption that no addon-plugin copy destination aliases that file). -/
theorem claim_C2_jvm_args_appended (comp : Option String) (p : Params) (fs : FS)
    (args : List String) (h : p.jvm_args = LitField.value args)
    (hcopy : copyAvoids p (jvmConfigPath p)) :
    contentAt (set_configuration comp p fs).fs (jvmConfigPath p)
      = contentAt fs (jvmConfigPath p) ++ appendBlock args ∧
    (lookupFile (set_configuration comp p fs).fs (jvmConfigPath p)).isSome = true := by
  obtain ⟨h1, h2⟩ := jvm_final comp p fs hcopy
  rw [h, listOf_value] at h1
  exact ⟨h1, h2 args h⟩

/-- Witness for claim C2: the specification's example, with pre-existing
content, yields exactly the two lines appended in order. -/
theorem claim_C2_witness :
    pW2.jvm_args = LitField.value ["-Xmx512m", "-Xms256m"] ∧
    copyAvoids pW2 (jvmConfigPath pW2) ∧
    contentAt fsW2 (jvmConfigPath pW2) = "OLD\n" ∧
    contentAt (set_configuration none pW2 fsW2).fs (jvmConfigPath pW2)
      = "OLD\n" ++ appendBlock ["-Xmx512m", "-Xms256m"] := by
  refine ⟨rfl, by decide, by decide, ?_⟩
  have h := (claim_C2_jvm_args_appended none pW2 fsW2 _ rfl (by decide)).1
  rw [show contentAt fsW2 (jvmConfigPath pW2) = ("OLD\n" : String) from by decide] at h
  exact h

/-- Claim C4: for every parameter set whose catalog_properties field is
present and decodes to a mapping from catalog name to property-line
sequences, set_configuration appends each catalog's lines, in order, one
per line, to catalog_dir/name.properties (stated for decoded mappings with
distinct names, under the assumptions that earlier steps succeed and that
the catalog file aliases neither rendered template nor any plugin-copy
destination). -/
theorem claim_C4_catalog_appended (comp : Option String) (p : Params) (fs : FS)
    (key : String) (lines : List String)
    (hjvm : p.jvm_args ≠ LitField.malformed)
    (hmem : (key, lines) ∈ p.catalog_properties.listOf)
    (hnd : (p.catalog_properties.listOf.map Prod.fst).Nodup)
    (hal1 : catalogPath p key ≠ configPropsPath p)
    (hal2 : catalogPath p key ≠ nodePropsPath p)
    (hcopy : copyAvoids p (catalogPath p key)) :
    contentAt (set_configuration comp p fs).fs (catalogPath p key)
      = contentAt fs (catalogPath p key) ++ appendBlock lines ∧
    (lookupFile (set_configuration comp p fs).fs (catalogPath p key)).isSome = true := by
  have h := catalog_final comp p fs hjvm hmem hnd hal1 hal2 hcopy
  exact ⟨contentAt_of_lookup h, by rw [h]; rfl⟩

/-- Witness for claim C4: the specification's hive example creates
hive.properties under the catalog directory with exactly the one line. -/
theorem claim_C4_witness :
    ((("hive" : String), ["connector.name=hive"]) ∈ pW4.catalog_properties.listOf) ∧
    contentAt (set_configuration none pW4 fsEmpty).fs (catalogPath pW4 ("hive"))
      = contentAt fsEmpty (catalogPath pW4 ("hive")) ++ appendBlock ["connector.name=hive"] :=
  ⟨by decide,
    (claim_C4_catalog_appended none pW4 fsEmpty _ _ (by decide) (by decide) (by decide)
      (by decide) (by decide) (by decide)).1⟩

/-- Claim C5: invoking set_configuration twice with the same
catalog_properties appends the same block twice: after the second
invocation every property line block of a catalog appears twice, the second
copy following the first (same side conditions as claim C4). -/
theorem claim_C5_twice_doubles (comp : Option String) (p : Params) (fs : FS)
    (key : String) (lines : List String)
    (hjvm : p.jvm_args ≠ LitField.malformed)
    (hmem : (key, lines) ∈ p.catalog_properties.listOf)
    (hnd : (p.catalog_properties.listOf.map Prod.fst).Nodup)
    (hal1 : catalogPath p key ≠ configPropsPath p)
    (hal2 : catalogPath p key ≠ nodePropsPath p)
    (hcopy : copyAvoids p (catalogPath p key)) :
    contentAt (set_configuration comp p fs).fs (catalogPath p key)
      = contentAt fs (catalogPath p key) ++ appendBlock lines ∧
    contentAt (set_configuration comp p (set_configuration comp p fs).fs).fs
        (catalogPath p key)
      = contentAt fs (catalogPath p key) ++ appendBlock lines ++ appendBlock lines := by
  have h1 := catalog_final comp p fs hjvm hmem hnd hal1 hal2 hcopy
  have h2 := catalog_final comp p (set_configuration comp p fs).fs hjvm hmem hnd hal1 hal2 hcopy
  refine ⟨contentAt_of_lookup h1, ?_⟩
  rw [contentAt_of_lookup h2, contentAt_of_lookup h1]

/-- Witness for claim C5: running the two-catalog input twice doubles the
hive block. -/
theorem claim_C5_witness :
    ((("hive" : String), ["connector.name=hive"]) ∈ pW5.catalog_properties.listOf) ∧
    contentAt (set_configuration none pW5 (set_configuration none pW5 fsEmpty).fs).fs
        (catalogPath pW5 ("hive"))
      = contentAt fsEmpty (catalogPath pW5 ("hive"))
          ++ appendBlock ["connector.name=hive"] ++ appendBlock ["connector.name=hive"] :=
  ⟨by decide,
    (claim_C5_twice_doubles none pW5 fsEmpty _ _ (by decide) (by decide) (by decide)
      (by decide) (by decide) (by decide)).2⟩

/-- Claim C6: when jvm_args and catalog_properties are both absent, the
corresponding steps are skipped: nothing is appended to any file, the two
templates are still rendered, and (when addon plugins are also absent) the
invocation succeeds and touches no file other than the two template
destinations. -/
theorem claim_C6_absent_skipped (comp : Option String) (p : Params) (fs : FS)
    (h1 : p.jvm_args = LitField.absent)
    (h2 : p.catalog_properties = LitField.absent) :
    appendPathsOf (set_configuration comp p fs).trace = [] ∧
    template_config (configPropsPath p) p comp ∈ (set_configuration comp p fs).trace ∧
    template_config (nodePropsPath p) p none ∈ (set_configuration comp p fs).trace ∧
    (p.addon_plugins = LitField.absent →
      (set_configuration comp p fs).err = none ∧
      ∀ q, configPropsPath p ≠ q → nodePropsPath p ≠ q →
        lookupFile (set_configuration comp p fs).fs q = lookupFile fs q) := by
  obtain ⟨t, ht, htc⟩ := trace_structure comp p fs
  refine ⟨?_, ?_, ?_, ?_⟩
  · rw [ht, appendPathsOf_append, appendPathsOf_dirTemplate, List.nil_append]
    apply List.filterMap_eq_nil_iff.mpr
    intro e he
    rcases htc e he with ⟨args, hjv, _⟩ | ⟨kv, hkv, _⟩ | hpl
    · rw [h1] at hjv
      exact absurd hjv (by simp)
    · rw [h2, listOf_absent] at hkv
      exact absurd hkv (List.not_mem_nil _)
    · rcases pluginEffects_mem hpl with ⟨kv, _, rfl⟩ | ⟨kv, _, jar, _, rfl⟩ <;> rfl
  · rw [ht]
    apply List.mem_append_left
    exact List.mem_cons_of_mem _ (List.mem_cons_of_mem _ (List.mem_cons_of_mem _
      (List.mem_cons_of_mem _ (List.mem_cons_self _ _))))
  · rw [ht]
    apply List.mem_append_left
    exact List.mem_cons_of_mem _ (List.mem_cons_of_mem _ (List.mem_cons_of_mem _
      (List.mem_cons_of_mem _ (List.mem_cons_of_mem _ (List.mem_cons_self _ _)))))
  · intro h3
    rw [set_configuration_unfold, h1, h2, h3, stepLit_absent, stepLit_absent, stepLit_absent]
    exact ⟨step1_err comp p fs, fun q hq1 hq2 => step1_files comp p fs hq1 hq2⟩

/-- Witness for claim C6: with all optional fields absent, no append is
performed, both templates are rendered, the run succeeds, and an unrelated
path is untouched. -/
theorem claim_C6_witness :
    pBase.jvm_args = LitField.absent ∧
    pBase.catalog_properties = LitField.absent ∧
    appendPathsOf (set_configuration none pBase fsEmpty).trace = [] ∧
    template_config (configPropsPath pBase) pBase none ∈
      (set_configuration none pBase fsEmpty).trace ∧
    (set_configuration none pBase fsEmpty).err = none ∧
    lookupFile (set_configuration none pBase fsEmpty).fs ("c/jvm.config")
      = lookupFile fsEmpty ("c/jvm.config") := by
  have h := claim_C6_absent_skipped none pBase fsEmpty rfl rfl
  exact ⟨rfl, rfl, h.1, h.2.1, (h.2.2.2 rfl).1,
    (h.2.2.2 rfl).2 ("c/jvm.config") (by decide) (by decide)⟩

/-- Claim C7: every invocation begins by ensuring the four directories with
the configured owner and group, recursively, before anything is rendered or
appended, and then renders the primary template tagged with the component
role and the node template untagged; afterwards the four directories
exist. -/
theorem claim_C7_dirs_first (comp : Option String) (p : Params) (fs : FS) :
    [Effect.ensureDir p.conf_dir p.presto_user p.user_group true,
     Effect.ensureDir p.catalog_dir p.presto_user p.user_group true,
     Effect.ensureDir p.pid_dir p.presto_user p.user_group true,
     Effect.ensureDir p.log_dir p.presto_user p.user_group true,
     Effect.renderTemplate (configPropsPath p) p.presto_user p.user_group comp,
     Effect.renderTemplate (nodePropsPath p) p.presto_user p.user_group none]
      <+: (set_configuration comp p fs).trace ∧
    p.conf_dir ∈ (set_configuration comp p fs).fs.dirs ∧
    p.catalog_dir ∈ (set_configuration comp p fs).fs.dirs ∧
    p.pid_dir ∈ (set_configuration comp p fs).fs.dirs ∧
    p.log_dir ∈ (set_configuration comp p fs).fs.dirs := by
  obtain ⟨t, ht, _⟩ := trace_structure comp p fs
  constructor
  · refine ⟨t, ?_⟩
    rw [show ([Effect.ensureDir p.conf_dir p.presto_user p.user_group true,
         Effect.ensureDir p.catalog_dir p.presto_user p.user_group true,
         Effect.ensureDir p.pid_dir p.presto_user p.user_group true,
         Effect.ensureDir p.log_dir p.presto_user p.user_group true,
         Effect.renderTemplate (configPropsPath p) p.presto_user p.user_group comp,
         Effect.renderTemplate (nodePropsPath p) p.presto_user p.user_group none]
        : List Effect) = dirTemplateEffects p comp from rfl]
    exact ht.symm
  · rw [set_configuration_unfold]
    have h1 := step1_dirs comp p fs
    refine ⟨?_, ?_, ?_, ?_⟩ <;>
      apply stepLit_dirs_mono <;> apply stepLit_dirs_mono <;> apply stepLit_dirs_mono
    · exact h1.1
    · exact h1.2.1
    · exact h1.2.2.1
    · exact h1.2.2.2

/-- Claim C10: ownership is set by exactly six actions per invocation — the
four directories and the two rendered templates, in that order — and the
ownership record of every other path, in particular of every append-created
file, is untouched by the routine. -/
theorem claim_C10_ownership_frame (comp : Option String) (p : Params) (fs : FS) :
    chownTargetsOf (set_configuration comp p fs).trace = chownTargetList p ∧
    ∀ q, q ∉ chownTargetList p →
      ownsAt (set_configuration comp p fs).fs q = ownsAt fs q := by
  constructor
  · obtain ⟨t, ht, htc⟩ := trace_structure comp p fs
    rw [ht]
    show List.filterMap Effect.chownsTo (dirTemplateEffects p comp ++ t) = _
    rw [List.filterMap_append]
    have h6 : List.filterMap Effect.chownsTo (dirTemplateEffects p comp)
        = chownTargetList p := dirTemplate_chownTargets p comp
    have hnil : List.filterMap Effect.chownsTo t = [] := by
      apply List.filterMap_eq_nil_iff.mpr
      intro e he
      rcases htc e he with ⟨args, _, rfl⟩ | ⟨kv, _, rfl⟩ | hpl
      · rfl
      · rfl
      · exact pluginEffects_chowns p _ e hpl
    rw [h6, hnil, List.append_nil]
  · intro q hq
    rw [set_configuration_unfold]
    have h4 := stepLit_owns_frame (q := q) mkdirsIfAbsent
      (stepLit mkdirsIfAbsent
        (stepLit mkdirsIfAbsent
          (stepRun mkdirsIfAbsent ⟨fs, [], none⟩ (dirTemplateEffects p comp))
          p.jvm_args (fun args => [store_configuration args (jvmConfigPath p)]))
        p.catalog_properties (fun m => catalogEffects p m))
      p.addon_plugins (fun m => pluginEffects p m)
      (fun m _ e he => by rw [pluginEffects_chowns p m e he]; simp)
    have h3 := stepLit_owns_frame (q := q) mkdirsIfAbsent
      (stepLit mkdirsIfAbsent
        (stepRun mkdirsIfAbsent ⟨fs, [], none⟩ (dirTemplateEffects p comp))
        p.jvm_args (fun args => [store_configuration args (jvmConfigPath p)]))
      p.catalog_properties (fun m => catalogEffects p m)
      (fun m _ e he => by rw [catalogEffects_chowns p m e he]; simp)
    have h2 := stepLit_owns_frame (q := q) mkdirsIfAbsent
      (stepRun mkdirsIfAbsent ⟨fs, [], none⟩ (dirTemplateEffects p comp))
      p.jvm_args (fun args => [store_configuration args (jvmConfigPath p)])
      (fun args _ e he => by
        rw [List.mem_singleton] at he
        subst he
        simp [store_configuration, Effect.chownsTo])
    rw [h4, h3, h2]
    exact step1_owns comp p fs hq

/-- Witness for claim C10: on a concrete input the six ownership records are
exactly the six targets, and the created JVM config file, which is outside
that list, has no ownership record. -/
theorem claim_C10_witness :
    chownTargetsOf (set_configuration none pW2 fsW2).trace = chownTargetList pW2 ∧
    (jvmConfigPath pW2 ∉ chownTargetList pW2) ∧
    ownsAt (set_configuration none pW2 fsW2).fs (jvmConfigPath pW2)
      = ownsAt fsW2 (jvmConfigPath pW2) :=
  ⟨(claim_C10_ownership_frame none pW2 fsW2).1, by decide,
    (claim_C10_ownership_frame none pW2 fsW2).2 (jvmConfigPath pW2) (by decide)⟩

/-- Claim C3: a malformed literal in any of the three optional fields makes
set_configuration raise, and nothing belonging to a step after the first
malformed field is performed: no plugin directory and no copy ever, no
append at all when jvm_args is malformed, and only JVM appends when
catalog_properties is malformed. -/
theorem claim_C3_malformed_aborts (comp : Option String) (p : Params) (fs : FS)
    (h : p.jvm_args = LitField.malformed ∨
         p.jvm_args ≠ LitField.malformed ∧ p.catalog_properties = LitField.malformed ∨
         p.jvm_args ≠ LitField.malformed ∧ p.catalog_properties ≠ LitField.malformed ∧
           p.addon_plugins = LitField.malformed) :
    (set_configuration comp p fs).err = some PyErr.malformedLiteral ∧
    copyDstsOf (set_configuration comp p fs).trace = [] ∧
    pluginDirsOf (set_configuration comp p fs).trace = [] ∧
    (p.jvm_args = LitField.malformed →
      appendPathsOf (set_configuration comp p fs).trace = []) ∧
    (p.catalog_properties = LitField.malformed →
      ∀ q ∈ appendPathsOf (set_configuration comp p fs).trace, q = jvmConfigPath p) := by
  rcases h with hjm | ⟨hjm, hcm⟩ | ⟨hjm, hcm, ham⟩
  · obtain ⟨herr, htr⟩ := malformed_first comp p fs hjm
    refine ⟨herr, ?_, ?_, ?_, ?_⟩
    · rw [htr]; exact copyDstsOf_dirTemplate p comp
    · rw [htr]; exact pluginDirsOf_dirTemplate p comp
    · intro _; rw [htr]; exact appendPathsOf_dirTemplate p comp
    · intro _ q hq
      rw [htr, appendPathsOf_dirTemplate] at hq
      exact absurd hq (List.not_mem_nil q)
  · obtain ⟨t, ht, htc⟩ := malformed_second_trace comp p fs hjm hcm
    refine ⟨err_second comp p fs hjm hcm, ?_, ?_, ?_, ?_⟩
    · rw [ht, copyDstsOf_append, copyDstsOf_dirTemplate, List.nil_append]
      apply List.filterMap_eq_nil_iff.mpr
      intro e he
      obtain ⟨args, _, rfl⟩ := htc e he
      rfl
    · rw [ht, pluginDirsOf_append, pluginDirsOf_dirTemplate, List.nil_append]
      apply List.filterMap_eq_nil_iff.mpr
      intro e he
      obtain ⟨args, _, rfl⟩ := htc e he
      rfl
    · intro hjm'; exact absurd hjm' hjm
    · intro _ q hq
      rw [ht, appendPathsOf_append, appendPathsOf_dirTemplate, List.nil_append] at hq
      obtain ⟨e, he, hfe⟩ := List.mem_filterMap.mp hq
      obtain ⟨args, _, rfl⟩ := htc e he
      cases hfe
      rfl
  · obtain ⟨t, ht, htc⟩ := malformed_third_trace comp p fs hjm hcm ham
    refine ⟨err_third comp p fs hjm hcm ham, ?_, ?_, ?_, ?_⟩
    · rw [ht, copyDstsOf_append, copyDstsOf_dirTemplate, List.nil_append]
      apply List.filterMap_eq_nil_iff.mpr
      intro e he
      rcases htc e he with ⟨args, _, rfl⟩ | ⟨kv, _, rfl⟩ <;> rfl
    · rw [ht, pluginDirsOf_append, pluginDirsOf_dirTemplate, List.nil_append]
      apply List.filterMap_eq_nil_iff.mpr
      intro e he
      rcases htc e he with ⟨args, _, rfl⟩ | ⟨kv, _, rfl⟩ <;> rfl
    · intro hjm'; exact absurd hjm' hjm
    · intro hcm'; exact absurd hcm' hcm

/-- Witness for claim C3: a parameter set with decoding JVM arguments, a
malformed catalog literal and a present addon-plugins literal raises, and
its trace contains no copy, no plugin directory, and appends only to the
JVM config file. -/
theorem claim_C3_witness :
    (pW3.jvm_args ≠ LitField.malformed ∧ pW3.catalog_properties = LitField.malformed) ∧
    (set_configuration none pW3 fsEmpty).err = some PyErr.malformedLiteral ∧
    copyDstsOf (set_configuration none pW3 fsEmpty).trace = [] ∧
    ∀ q ∈ appendPathsOf (set_configuration none pW3 fsEmpty).trace, q = jvmConfigPath pW3 := by
  have h := claim_C3_malformed_aborts none pW3 fsEmpty (Or.inr (Or.inl ⟨by decide, rfl⟩))
  exact ⟨⟨by decide, rfl⟩, h.1, h.2.1, h.2.2.2.2 rfl⟩

/-- Claim C9: a present jvm_args field decoding to the empty sequence still
opens the JVM config file in append mode, so the file comes to exist with
its previous content (empty when fresh) and zero lines added; likewise a
catalog entry with an empty decoded sequence still creates its catalog
file (same side conditions as claims C2 and C4). -/
theorem claim_C9_empty_creates (comp : Option String) (p : Params) (fs : FS)
    (h1 : p.jvm_args = LitField.value [])
    (hcopy : copyAvoids p (jvmConfigPath p)) :
    (lookupFile (set_configuration comp p fs).fs (jvmConfigPath p)).isSome = true ∧
    contentAt (set_configuration comp p fs).fs (jvmConfigPath p)
      = contentAt fs (jvmConfigPath p) ∧
    (∀ key, (key, ([] : List String)) ∈ p.catalog_properties.listOf →
      (p.catalog_properties.listOf.map Prod.fst).Nodup →
      catalogPath p key ≠ configPropsPath p →
      catalogPath p key ≠ nodePropsPath p →
      copyAvoids p (catalogPath p key) →
      (lookupFile (set_configuration comp p fs).fs (catalogPath p key)).isSome = true ∧
      contentAt (set_configuration comp p fs).fs (catalogPath p key)
        = contentAt fs (catalogPath p key)) := by
  obtain ⟨hc, hs⟩ := jvm_final comp p fs hcopy
  rw [h1, listOf_value, appendBlock_nil, str_append_emptyStr] at hc
  refine ⟨hs [] h1, hc, ?_⟩
  intro key hmem hnd hal1 hal2 hcopy'
  have hjvm : p.jvm_args ≠ LitField.malformed := by rw [h1]; simp
  have h := catalog_final comp p fs hjvm hmem hnd hal1 hal2 hcopy'
  rw [appendBlock_nil, str_append_emptyStr] at h
  exact ⟨by rw [h]; rfl, contentAt_of_lookup h⟩

/-- Witness for claim C9: the literal-empty JVM arguments and an empty hive
catalog create both files, empty, on a fresh filesystem. -/
theorem claim_C9_witness :
    pW9.jvm_args = LitField.value [] ∧
    (lookupFile fsEmpty (jvmConfigPath pW9)).isSome = false ∧
    (lookupFile (set_configuration none pW9 fsEmpty).fs (jvmConfigPath pW9)).isSome = true ∧
    contentAt (set_configuration none pW9 fsEmpty).fs (jvmConfigPath pW9) = "" ∧
    (lookupFile (set_configuration none pW9 fsEmpty).fs (catalogPath pW9 ("hive"))).isSome
      = true := by
  have h := claim_C9_empty_creates none pW9 fsEmpty rfl (by decide)
  refine ⟨rfl, by decide, h.1, ?_, (h.2.2 ("hive") (by decide) (by decide) (by decide)
    (by decide) (by decide)).1⟩
  rw [h.2.1]
  decide

/-- Claim C1, amended: the JVM config file and every catalog property file
are only ever opened in append mode, so the content present before the
invocation is a prefix of the content after it — provided no catalog file
path coincides with a rendered-template destination and no plugin-copy
destination coincides with an append target (without these provisos the
original claim fails, because rendering overwrites and copying replaces). -/
theorem claim_C1_amended (comp : Option String) (p : Params) (fs : FS)
    (hcopyJ : copyAvoids p (jvmConfigPath p))
    (halias : ∀ kv ∈ p.catalog_properties.listOf,
      catalogPath p kv.1 ≠ configPropsPath p ∧ catalogPath p kv.1 ≠ nodePropsPath p ∧
        copyAvoids p (catalogPath p kv.1))
    (hnd : (p.catalog_properties.listOf.map Prod.fst).Nodup) :
    (∃ s, contentAt (set_configuration comp p fs).fs (jvmConfigPath p)
        = contentAt fs (jvmConfigPath p) ++ s) ∧
    ∀ kv ∈ p.catalog_properties.listOf,
      ∃ s, contentAt (set_configuration comp p fs).fs (catalogPath p kv.1)
        = contentAt fs (catalogPath p kv.1) ++ s := by
  refine ⟨⟨appendBlock p.jvm_args.listOf, (jvm_final comp p fs hcopyJ).1⟩, ?_⟩
  intro kv hkv
  by_cases hjm : p.jvm_args = LitField.malformed
  · refine ⟨emptyStr, ?_⟩
    rw [str_append_emptyStr]
    apply contentAt_congr
    rw [malformed_first_fs comp p fs hjm]
    exact step1_files comp p fs (fun hj => (halias kv hkv).1 hj.symm)
      (fun hj => (halias kv hkv).2.1 hj.symm)
  · exact ⟨appendBlock kv.2,
      contentAt_of_lookup (catalog_final comp p fs hjm hkv hnd (halias kv hkv).1
        (halias kv hkv).2.1 (halias kv hkv).2.2)⟩

/-- Witness for the amended claim C1: with a JVM file holding prior content
and a hive catalog, both append targets keep their prior content as a
prefix. -/
theorem claim_C1_witness :
    copyAvoids pW1 (jvmConfigPath pW1) ∧
    (∃ s, contentAt (set_configuration none pW1 fsW2).fs (jvmConfigPath pW1)
        = contentAt fsW2 (jvmConfigPath pW1) ++ s) ∧
    ∀ kv ∈ pW1.catalog_properties.listOf,
      ∃ s, contentAt (set_configuration none pW1 fsW2).fs (catalogPath pW1 kv.1)
        = contentAt fsW2 (catalogPath pW1 kv.1) ++ s := by
  have h := claim_C1_amended none pW1 fsW2 (by decide) (by decide) (by decide)
  exact ⟨by decide, h.1, h.2⟩

/-- Counterexample to claim C1 as stated: when the catalog directory equals
the configuration directory and a catalog is named node, the catalog file
coincides with the rendered node-identity template; the invocation succeeds
but the pre-existing content is no longer a prefix of the final content,
because the template rendering overwrote it before the append. -/
theorem claim_C1_counterexample :
    (set_configuration none pX1 fsX1).err = none ∧
    catalogPath pX1 ("node") = nodePropsPath pX1 ∧
    contentAt fsX1 (catalogPath pX1 ("node")) = "X" ∧
    strIsPrefixOf (contentAt fsX1 (catalogPath pX1 ("node")))
      (contentAt (set_configuration none pX1 fsX1).fs (catalogPath pX1 ("node"))) = false := by
  refine ⟨by decide, by decide, by decide, by decide⟩

/-- Claim C8, amended: for every decoded addon-plugins mapping,
set_configuration creates each plugin's destination directory if absent
using a non-recursive existence check and recursive creation (missing
intermediate directories are created as well, per os.makedirs — not the
single-level creation the original claim describes), and copies each named
artifact from the source plugin directory into that destination, preserving
content and metadata and overwriting any same-named existing file.  Stated
under explicit non-interference side conditions: earlier optional fields
are not malformed, all sources exist, no source path aliases a rendered or
appended file or a copy destination, and every copy landing on the chosen
destination copies the same source. -/
theorem claim_C8_amended (comp : Option String) (p : Params) (fs : FS)
    (key : String) (jars : List String) (jar : String)
    (hjvm : p.jvm_args ≠ LitField.malformed)
    (hcat : p.catalog_properties ≠ LitField.malformed)
    (hmem : (key, jars) ∈ p.addon_plugins.listOf)
    (hjar : jar ∈ jars)
    (hex : ∀ kv ∈ p.addon_plugins.listOf, ∀ j ∈ kv.2,
      (lookupFile fs (srcOf p j)).isSome = true)
    (hsrcfree : ∀ kv ∈ p.addon_plugins.listOf, ∀ j ∈ kv.2,
      srcOf p j ≠ configPropsPath p ∧ srcOf p j ≠ nodePropsPath p ∧
      srcOf p j ≠ jvmConfigPath p ∧
      ∀ kv' ∈ p.catalog_properties.listOf, srcOf p j ≠ catalogPath p kv'.1)
    (hnc : ∀ kv ∈ p.addon_plugins.listOf, ∀ j ∈ kv.2,
      ∀ kv' ∈ p.addon_plugins.listOf, ∀ j' ∈ kv'.2, dstOf p kv'.1 j' ≠ srcOf p j)
    (huniq : ∀ kv' ∈ p.addon_plugins.listOf, ∀ j' ∈ kv'.2,
      dstOf p kv'.1 j' = dstOf p key jar → srcOf p j' = srcOf p jar) :
    (set_configuration comp p fs).err = none ∧
    pathExists (set_configuration comp p fs).fs (pluginDirOf p key) = true ∧
    lookupFile (set_configuration comp p fs).fs (dstOf p key jar)
      = lookupFile fs (srcOf p jar) := by
  cases haddon : p.addon_plugins with
  | absent =>
      rw [haddon, listOf_absent] at hmem
      exact absurd hmem (List.not_mem_nil _)
  | malformed =>
      rw [haddon, listOf_malformed] at hmem
      exact absurd hmem (List.not_mem_nil _)
  | value m =>
      rw [haddon, listOf_value] at hmem hex hsrcfree hnc huniq
      rw [set_configuration_unfold, haddon]
      set r1 := stepRun mkdirsIfAbsent ⟨fs, [], none⟩ (dirTemplateEffects p comp) with hr1
      set r2 := stepLit mkdirsIfAbsent r1 p.jvm_args
        (fun args => [store_configuration args (jvmConfigPath p)]) with hr2
      set r3 := stepLit mkdirsIfAbsent r2 p.catalog_properties
        (fun m => catalogEffects p m) with hr3
      have h3err : r3.err = none := by
        rw [hr3, hr2, hr1]
        exact step3_err comp p fs hjvm hcat
      have hsrcs : ∀ kv ∈ m, ∀ j ∈ kv.2,
          lookupFile r3.fs (srcOf p j) = lookupFile fs (srcOf p j) := by
        intro kv hkv j hj
        obtain ⟨hs1, hs2, hs3, hs4⟩ := hsrcfree kv hkv j hj
        have h32 : lookupFile r3.fs (srcOf p j) = lookupFile r2.fs (srcOf p j) := by
          rw [hr3]
          apply stepLit_files_frame
          intro m' hm' e he hw
          obtain ⟨kv', hkv', rfl⟩ := catalogEffects_mem he
          have heq : catalogPath p kv'.1 = srcOf p j := Option.some.injEq _ _ ▸ hw
          refine hs4 kv' ?_ heq.symm
          rw [hm', listOf_value]
          exact hkv'
        have h21 : lookupFile r2.fs (srcOf p j) = lookupFile r1.fs (srcOf p j) := by
          rw [hr2]
          apply stepLit_files_frame
          intro args _ e he hw
          rw [List.mem_singleton] at he
          subst he
          have heq : jvmConfigPath p = srcOf p j := Option.some.injEq _ _ ▸ hw
          exact hs3 heq.symm
        have h10 : lookupFile r1.fs (srcOf p j) = lookupFile fs (srcOf p j) := by
          rw [hr1]
          exact step1_files comp p fs (fun hh => hs1 hh.symm) (fun hh => hs2 hh.symm)
        rw [h32, h21, h10]
      have hexB : ∀ kv ∈ m, ∀ j ∈ kv.2, (lookupFile r3.fs (srcOf p j)).isSome = true := by
        intro kv hkv j hj
        rw [hsrcs kv hkv j hj]
        exact hex kv hkv j hj
      obtain ⟨Pe, Pf, Pl⟩ := plugins_run p m r3.fs hexB hnc
      rw [stepLit_value mkdirsIfAbsent m (fun m => pluginEffects p m) h3err,
        stepRun_of_none mkdirsIfAbsent _ h3err]
      dsimp only
      refine ⟨Pe, ?_, ?_⟩
      · apply runEffects_pluginDir_exists _ r3.fs _ Pe
        exact List.mem_flatMap.mpr ⟨(key, jars), hmem, List.mem_cons_self _ _⟩
      · rw [Pl key jars jar hmem hjar huniq]
        exact hsrcs (key, jars) hmem jar hjar

/-- Witness for the amended claim C8: one plugin with two artifacts; the
invocation succeeds, the plugin directory exists, and the destination that
a stale file previously occupied now holds the source file with its
metadata. -/
theorem claim_C8_witness :
    ((("myplugin" : String), ["a.jar", "b.jar"]) ∈ pW8.addon_plugins.listOf) ∧
    lookupFile fsW8 (dstOf pW8 ("myplugin") ("a.jar")) = some ⟨"STALE", 9⟩ ∧
    (set_configuration none pW8 fsW8).err = none ∧
    pathExists (set_configuration none pW8 fsW8).fs (pluginDirOf pW8 ("myplugin")) = true ∧
    lookupFile (set_configuration none pW8 fsW8).fs (dstOf pW8 ("myplugin") ("a.jar"))
      = lookupFile fsW8 (srcOf pW8 ("a.jar")) := by
  have h := claim_C8_amended none pW8 fsW8 ("myplugin") ["a.jar", "b.jar"] ("a.jar")
    (by decide) (by decide) (by decide) (by decide) (by decide) (by decide) (by decide)
    (by decide)
  exact ⟨by decide, by decide, h.1, h.2.1, h.2.2⟩

/-- Counterexample to claim C8 as stated: with the plugin root entirely
absent, the single-level creation the claim describes raises a
missing-parent error, while the actual code succeeds and creates the
missing intermediate directories recursively, then copies the artifact. -/
theorem claim_C8_counterexample :
    (set_configuration_singleLevelCreate none pX8 fsX8).err
      = some (PyErr.dirNotFound ("opt/pl/myplugin")) ∧
    (set_configuration none pX8 fsX8).err = none ∧
    ("opt" ∈ (set_configuration none pX8 fsX8).fs.dirs) ∧
    ("opt/pl" ∈ (set_configuration none pX8 fsX8).fs.dirs) ∧
    lookupFile (set_configuration none pX8 fsX8).fs (dstOf pX8 ("myplugin") ("a.jar"))
      = some ⟨"JAR", 7⟩ := by
  refine ⟨by decide, by decide, by decide, by decide, by decide⟩

end PrestoYarn
